import Mathlib

/-!
Verification of the finance-snapshot aggregation pipeline of the
Emerald-Finance application: the snapshot builder
(`buildZeroDashboardSnapshot`, `buildDashboardSnapshotFromTransactions`),
the spending-summary helper (`buildSpendingSummary`), the currency
inference (`normalizeCurrencyCode`, `inferCurrencyCodeFromAccounts`) and
the evaluation engine (`buildFinanceEvaluation`).

Embedding conventions:
* JS `number` values are modelled as `ℚ` (the pipeline is ordinary
  rational arithmetic; floating-point representation is not the subject
  of the spec).  Timestamps (`Date.getTime()` milliseconds) are `ℤ`.
* JS `Math.floor` is `Int.floor`, JS `Math.round` (half toward +∞) is
  `jsRound q = ⌊q + 1/2⌋`, `Math.max/min` chains are `max`/`min`.
* String operations (`toUpperCase`, `trim`, `includes`) are modelled on
  the underlying character lists with ASCII case mapping; Unicode
  case-mapping subtleties are outside the scope of the claims.
* JS `Map` (insertion-ordered) is modelled as an association list where
  updating an existing key keeps its position and a new key is appended.
* JS `Array.prototype.sort` (stable) is modelled as a stable insertion
  sort with the same comparator semantics.
-/

/-- JS `Math.round`: rounds half toward plus infinity. -/
def jsRound (q : ℚ) : ℤ := ⌊q + 1/2⌋

/-- `clamp(n, min, max) = Math.max(min, Math.min(max, n))` from both
`from-transactions.ts` and `evaluations.ts`. -/
def clamp (n mn mx : ℚ) : ℚ := max mn (min mx n)

/-- ASCII uppercase of a string (JS `toUpperCase`, restricted to ASCII). -/
def upperStr (s : String) : String := ⟨s.data.map Char.toUpper⟩

/-- JS `String.prototype.trim`: strip whitespace from both ends. -/
def trimStr (s : String) : String :=
  ⟨((s.data.dropWhile Char.isWhitespace).reverse.dropWhile Char.isWhitespace).reverse⟩

/-- Character-list version of "`pat` occurs at the start of `s`". -/
def charsStartWith : List Char → List Char → Bool
  | [], _ => true
  | _ :: _, [] => false
  | a :: as, b :: bs => a == b && charsStartWith as bs

/-- JS `String.prototype.includes`: `pat` occurs somewhere in `s`. -/
def charsContain (pat : List Char) : List Char → Bool
  | [] => charsStartWith pat []
  | b :: bs => charsStartWith pat (b :: bs) || charsContain pat bs

/-- `s.includes(pat)` on strings. -/
def strIncludes (s pat : String) : Bool := charsContain pat.data s.data

/-- `FinancePeriod = "1W" | "1M" | "3M" | "1Y" | "ALL"` from `types.ts`. -/
inductive FinancePeriod where
  | P1W | P1M | P3M | P1Y | PALL
deriving DecidableEq

/-- `SpendingCategory` from `types.ts`. -/
inductive SpendingCategory where
  | Essentials | Leisure | Subscriptions
deriving DecidableEq

/-- Transaction input shape (`TxLike` in `from-transactions.ts`);
`date` is epoch milliseconds. -/
structure TxLike where
  id : String
  date : ℤ
  name : String
  meta : Option String
  amount : ℚ
  category : Option String
deriving DecidableEq

/-- Account input shape (`AccountLike` in `from-transactions.ts`). -/
structure AccountLike where
  currentBalance : Option ℚ
  availableBalance : Option ℚ
  currencyCode : Option String
deriving DecidableEq

/-- `BucketConfig` from `from-transactions.ts` (label style omitted from
the claims is kept for fidelity). -/
structure BucketConfig where
  len : ℕ
  windowDays : ℕ
deriving DecidableEq

/-- `getBucketConfig` from `from-transactions.ts`. -/
def getBucketConfig : FinancePeriod → BucketConfig
  | .P1W => ⟨7, 7⟩
  | .P1M => ⟨12, 30⟩
  | .P3M => ⟨18, 90⟩
  | .P1Y => ⟨12, 365⟩
  | .PALL => ⟨22, 730⟩

/-- `getLabels` from `from-transactions.ts`. -/
def getLabels (period : FinancePeriod) (len : ℕ) : List String :=
  match period with
  | .P1W => (["Mon", "Tue", "Wed", "Thu", "Fri", "Sat", "Sun"]).take len
  | .P1M => (List.range len).map (fun i => "W" ++ toString (i + 1))
  | .P3M => (List.range len).map (fun i => "W" ++ toString (i + 1))
  | .P1Y => (["Jan", "Feb", "Mar", "Apr", "May", "Jun", "Jul", "Aug",
      "Sep", "Oct", "Nov", "Dec"]).take len
  | .PALL => (List.range len).map (fun i => "P" ++ toString (i + 1))

/-- `mapCategory` from `from-transactions.ts`: keyword classification of a
category label, case-insensitive substring matching. -/
def mapCategory (raw : Option String) : SpendingCategory :=
  let s := upperStr (raw.getD "")
  if strIncludes s "SUBSCRIPT" || strIncludes s "SERVICE" || strIncludes s "STREAM" then
    .Subscriptions
  else if strIncludes s "ENTERTAIN" || strIncludes s "TRAVEL" || strIncludes s "TRANSPORT"
      || strIncludes s "RECREATION" then
    .Leisure
  else .Essentials

/-- Result of `sumRange` from `from-transactions.ts`. -/
structure RangeSums where
  income : ℚ
  spend : ℚ
deriving DecidableEq

/-- `sumRange(transactions, start, end)`: income and spend magnitudes of
transactions with timestamp in `[start, end)`. -/
def sumRange (transactions : List TxLike) (start stop : ℤ) : RangeSums :=
  transactions.foldl
    (fun acc t =>
      if t.date < start ∨ stop ≤ t.date then acc
      else if 0 ≤ t.amount then { acc with income := acc.income + t.amount }
      else { acc with spend := acc.spend + (-t.amount) })
    ⟨0, 0⟩

/-- `normalizeCurrencyCode` from `currency.ts`: trim, uppercase, accept
exactly three ASCII letters (the regex `^[A-Z]{3}$`), otherwise `none`. -/
def normalizeCurrencyCode (code : Option String) : Option String :=
  let c := upperStr (trimStr (code.getD ""))
  if c.data.length = 3 ∧ c.data.all (fun ch => 'A' ≤ ch && ch ≤ 'Z') then some c
  else none

/-- One `Map.set(code, (get(code) ?? 0) + 1)` step on an insertion-ordered
association list: an existing key keeps its position, a new key is
appended at the end. -/
def bumpCount : List (String × ℕ) → String → List (String × ℕ)
  | [], code => [(code, 1)]
  | (c, n) :: rest, code =>
      if c = code then (c, n + 1) :: rest else (c, n) :: bumpCount rest code

/-- The `counts` map of `inferCurrencyCodeFromAccounts` after the
accumulation loop over the accounts. -/
def accumulateCounts (accounts : List AccountLike) : List (String × ℕ) :=
  accounts.foldl
    (fun m a =>
      match normalizeCurrencyCode a.currencyCode with
      | none => m
      | some code => bumpCount m code)
    []

/-- The `best`/`bestCount` selection loop of
`inferCurrencyCodeFromAccounts`: take an entry only when its count is
strictly greater than the best so far. -/
def selectBest (counts : List (String × ℕ)) : Option String × ℕ :=
  counts.foldl (fun acc e => if acc.2 < e.2 then (some e.1, e.2) else acc) (none, 0)

/-- `inferCurrencyCodeFromAccounts` from `currency.ts`. -/
def inferCurrencyCodeFromAccounts (accounts : List AccountLike)
    (fallback : Option String) : Option String :=
  let best := (selectBest (accumulateCounts accounts)).1
  match best with
  | some b => some b
  | none => normalizeCurrencyCode fallback

/-- `SpendingSeries` from `types.ts`, after the final `Math.round` (the
rounded values are integers). -/
structure SpendingSeries where
  total : List ℤ
  essentials : List ℤ
  leisure : List ℤ
  subscriptions : List ℤ
deriving DecidableEq

/-- `DemoTransaction` from `types.ts`.  The `dateISO` field renders the
timestamp as an ISO-8601 string; the rendering itself is presentation
only, so the field here keeps the raw epoch milliseconds. -/
structure DemoTransaction where
  id : String
  dateMs : ℤ
  name : String
  meta : String
  amount : ℚ
  category : Option SpendingCategory
deriving DecidableEq

/-- `DashboardKpis` from `types.ts`. -/
structure DashboardKpis where
  currentBalance : ℚ
  currentBalanceTrendPct : ℚ
  monthlySpend : ℚ
  monthlySpendTrendPct : ℚ
  savingsRate : ℚ
  savingsRateTrendPctPoints : ℚ
  upcomingBills : ℚ
  upcomingBillsDueInDays : ℚ
deriving DecidableEq

/-- `DashboardSnapshot` from `types.ts`. -/
structure DashboardSnapshot where
  period : FinancePeriod
  currencyCode : Option String
  labels : List String
  series : SpendingSeries
  points : List ℤ
  kpis : DashboardKpis
  recentTransactions : List DemoTransaction
deriving DecidableEq

/-- `buildZeroDashboardSnapshot` from `from-transactions.ts`. -/
def buildZeroDashboardSnapshot (period : FinancePeriod) : DashboardSnapshot :=
  let cfg := getBucketConfig period
  let labels := getLabels period cfg.len
  let zeros : List ℤ := List.replicate cfg.len 0
  { period := period
    currencyCode := none
    labels := labels
    series := ⟨zeros, zeros, zeros, zeros⟩
    points := zeros
    kpis :=
      { currentBalance := 0, currentBalanceTrendPct := 0
        monthlySpend := 0, monthlySpendTrendPct := 0
        savingsRate := 0, savingsRateTrendPctPoints := 0
        upcomingBills := 0, upcomingBillsDueInDays := 0 }
    recentTransactions := [] }

/-- The pre-rounding bucket accumulators (`total`, `essentials`,
`leisure`, `subscriptions` arrays of the chart loop), as functions from
bucket index to accumulated magnitude. -/
structure BucketAcc where
  total : ℕ → ℚ
  essentials : ℕ → ℚ
  leisure : ℕ → ℚ
  subscriptions : ℕ → ℚ

/-- All-zero accumulators (`Array(cfg.len).fill(0)`). -/
def BucketAcc.zero : BucketAcc := ⟨fun _ => 0, fun _ => 0, fun _ => 0, fun _ => 0⟩

/-- `arr[idx] += v` on a bucket accumulator. -/
def bumpAt (f : ℕ → ℚ) (i : ℕ) (v : ℚ) : ℕ → ℚ :=
  fun j => if j = i then f j + v else f j

/-- `clamp(Math.floor((ts - startMs) / segmentMs), 0, len - 1)`: the
bucket index of a transaction timestamp. -/
def txBucketIndex (startMs : ℤ) (segmentMs : ℚ) (len : ℕ) (ts : ℤ) : ℕ :=
  (max 0 (min ((len : ℤ) - 1) ⌊((ts - startMs : ℤ) : ℚ) / segmentMs⌋)).toNat

/-- One iteration of the chart loop of
`buildDashboardSnapshotFromTransactions`: skip income (`amount >= 0`) and
out-of-window transactions, otherwise add the spend magnitude to `total`
and to the mapped category at the bucket index. -/
def chartStep (startMs endMs : ℤ) (segmentMs : ℚ) (len : ℕ)
    (acc : BucketAcc) (t : TxLike) : BucketAcc :=
  if 0 ≤ t.amount then acc
  else if t.date < startMs ∨ endMs ≤ t.date then acc
  else
    let idx := txBucketIndex startMs segmentMs len t.date
    let spendValue := -t.amount
    let acc1 := { acc with total := bumpAt acc.total idx spendValue }
    match mapCategory t.category with
    | .Essentials => { acc1 with essentials := bumpAt acc1.essentials idx spendValue }
    | .Leisure => { acc1 with leisure := bumpAt acc1.leisure idx spendValue }
    | .Subscriptions => { acc1 with subscriptions := bumpAt acc1.subscriptions idx spendValue }

/-- The chart loop over all transactions. -/
def chartAcc (startMs endMs : ℤ) (segmentMs : ℚ) (len : ℕ)
    (transactions : List TxLike) : BucketAcc :=
  transactions.foldl (chartStep startMs endMs segmentMs len) BucketAcc.zero

/-- Stable insertion (descending by `date`) modelling the comparator
`(a, b) => b.date.getTime() - a.date.getTime()` of a stable JS sort:
a transaction is inserted after every earlier one of greater or equal
date. -/
def insertByDateDesc (x : TxLike) : List TxLike → List TxLike
  | [] => [x]
  | y :: ys => if y.date < x.date then x :: y :: ys else y :: insertByDateDesc x ys

/-- `[...transactions].sort((a, b) => b.date - a.date)`: stable sort,
most recent first. -/
def sortByDateDesc (l : List TxLike) : List TxLike :=
  l.foldl (fun acc x => insertByDateDesc x acc) []

/-- `buildDashboardSnapshotFromTransactions` from `from-transactions.ts`.
The optional `now` argument (defaulting to the ambient clock) is modelled
as a required epoch-millisecond parameter. -/
def buildDashboardSnapshotFromTransactions (period : FinancePeriod)
    (accounts : List AccountLike) (transactions : List TxLike)
    (now : ℤ) : DashboardSnapshot :=
  let cfg := getBucketConfig period
  let labels := getLabels period cfg.len
  let endMs : ℤ := now
  let startMs : ℤ := endMs - cfg.windowDays * 24 * 60 * 60 * 1000
  let segmentMs : ℚ := ((endMs - startMs : ℤ) : ℚ) / (cfg.len : ℚ)
  let acc := chartAcc startMs endMs segmentMs cfg.len transactions
  let series : SpendingSeries :=
    { total := (List.range cfg.len).map (fun i => jsRound (acc.total i))
      essentials := (List.range cfg.len).map (fun i => jsRound (acc.essentials i))
      leisure := (List.range cfg.len).map (fun i => jsRound (acc.leisure i))
      subscriptions := (List.range cfg.len).map (fun i => jsRound (acc.subscriptions i)) }
  let points := series.total
  let currencyCode := inferCurrencyCodeFromAccounts accounts none
  let currentBalance := accounts.foldl (fun s a => s + a.currentBalance.getD 0) 0
  let d30 : ℤ := 30 * 24 * 60 * 60 * 1000
  let this30 := sumRange transactions (now - d30) now
  let prev30 := sumRange transactions (now - 2 * d30) (now - d30)
  let monthlySpend := this30.spend
  let monthlySpendTrendPct : ℚ :=
    if prev30.spend = 0 then 0 else (this30.spend - prev30.spend) / prev30.spend
  let savingsRate : ℚ :=
    if this30.income = 0 then 0
    else clamp ((this30.income - this30.spend) / this30.income) 0 0.95
  let prevSavingsRate : ℚ :=
    if prev30.income = 0 then 0
    else clamp ((prev30.income - prev30.spend) / prev30.income) 0 0.95
  let savingsRateTrendPctPoints := (savingsRate - prevSavingsRate) * 100
  let d7 : ℤ := 7 * 24 * 60 * 60 * 1000
  let net7 := ((transactions.filter (fun t => now - d7 ≤ t.date)).map
    (fun t => t.amount)).sum
  let priorBalance := currentBalance - net7
  let currentBalanceTrendPct : ℚ :=
    if priorBalance = 0 then 0 else (currentBalance - priorBalance) / |priorBalance|
  let upcomingBills : ℚ := ((series.subscriptions.sum : ℤ) : ℚ) / 2
  let recentTransactions : List DemoTransaction :=
    (((sortByDateDesc transactions).take 6).map
      (fun t =>
        { id := t.id
          dateMs := t.date
          name := t.name
          meta := (t.meta.orElse (fun _ => t.category)).getD "Bank"
          amount := t.amount
          category := if t.amount < 0 then some (mapCategory t.category) else none })).take 4
  { period := period
    currencyCode := currencyCode
    labels := labels
    series := series
    points := points
    kpis :=
      { currentBalance := currentBalance
        currentBalanceTrendPct := clamp currentBalanceTrendPct (-0.5) 0.5
        monthlySpend := monthlySpend
        monthlySpendTrendPct := clamp monthlySpendTrendPct (-0.9) 0.9
        savingsRate := savingsRate
        savingsRateTrendPctPoints := clamp savingsRateTrendPctPoints (-50) 50
        upcomingBills := upcomingBills
        upcomingBillsDueInDays := 7 }
    recentTransactions := recentTransactions }

/-- Parameter shape of `buildSpendingSummary` in `ai/finance.ts`:
`{ amount: number; category: string | null }`. -/
structure TxAmountCategory where
  amount : ℚ
  category : Option String
deriving DecidableEq

/-- One entry of `topCategories`. -/
structure CategoryAmount where
  category : String
  amount : ℚ
deriving DecidableEq

/-- Return shape of `buildSpendingSummary` in `ai/finance.ts` (the caller
adds the `timeframe` field). -/
structure SpendingSummaryCore where
  income : ℚ
  spend : ℚ
  net : ℚ
  topCategories : List CategoryAmount
deriving DecidableEq

/-- `(t.category ?? "Uncategorized").trim() || "Uncategorized"`: the
accumulation key of a transaction category. -/
def summaryCategoryKey (category : Option String) : String :=
  let k := trimStr (category.getD "Uncategorized")
  if k = "" then "Uncategorized" else k

/-- `spendByCategory.set(category, (get(category) ?? 0) + spendValue)` on
an insertion-ordered association list. -/
def bumpAmount : List (String × ℚ) → String → ℚ → List (String × ℚ)
  | [], key, v => [(key, v)]
  | (c, a) :: rest, key, v =>
      if c = key then (c, a + v) :: rest else (c, a) :: bumpAmount rest key v

/-- The running state of the `buildSpendingSummary` loop. -/
structure SummaryAcc where
  income : ℚ
  spend : ℚ
  byCategory : List (String × ℚ)
deriving DecidableEq

/-- One iteration of the `buildSpendingSummary` loop. -/
def summaryStep (acc : SummaryAcc) (t : TxAmountCategory) : SummaryAcc :=
  if 0 ≤ t.amount then { acc with income := acc.income + t.amount }
  else
    let spendValue := -t.amount
    { income := acc.income
      spend := acc.spend + spendValue
      byCategory := bumpAmount acc.byCategory (summaryCategoryKey t.category) spendValue }

/-- Stable insertion (descending by accumulated amount) modelling the
comparator `(a, b) => b[1] - a[1]` of a stable JS sort: an entry is
inserted after every earlier entry of greater or equal amount. -/
def insertByAmountDesc (x : String × ℚ) : List (String × ℚ) → List (String × ℚ)
  | [] => [x]
  | y :: ys => if y.2 < x.2 then x :: y :: ys else y :: insertByAmountDesc x ys

/-- `[...spendByCategory.entries()].sort((a, b) => b[1] - a[1])`. -/
def sortByAmountDesc (l : List (String × ℚ)) : List (String × ℚ) :=
  l.foldl (fun acc x => insertByAmountDesc x acc) []

/-- `buildSpendingSummary` from `ai/finance.ts`. -/
def buildSpendingSummary (transactions : List TxAmountCategory) : SpendingSummaryCore :=
  let acc := transactions.foldl summaryStep ⟨0, 0, []⟩
  { income := acc.income
    spend := acc.spend
    net := acc.income - acc.spend
    topCategories :=
      ((sortByAmountDesc acc.byCategory).take 8).map (fun e => ⟨e.1, e.2⟩) }

/-- `SpendingSummary` as consumed by `evaluations.ts` (with `timeframe`). -/
structure SpendingSummary where
  timeframe : String
  income : ℚ
  spend : ℚ
  net : ℚ
  topCategories : List CategoryAmount
deriving DecidableEq

/-- One insight of a `FinanceEvaluation`. -/
structure FinanceInsight where
  severity : String
  title : String
  detail : String
deriving DecidableEq

/-- One next-action link of a `FinanceEvaluation`. -/
structure NextAction where
  label : String
  route : String
deriving DecidableEq

/-- The `metrics` block of a `FinanceEvaluation`. -/
structure EvaluationMetrics where
  monthlySpend : ℚ
  monthlySpendTrendPct : ℚ
  currentBalance : ℚ
  currentBalanceTrendPct : ℚ
  savingsRate : ℚ
  upcomingBillsEstimate : ℚ
  categoryConcentrationTop1Pct : Option ℚ
deriving DecidableEq

/-- `FinanceEvaluation` from `evaluations.ts`. -/
structure FinanceEvaluation where
  status : String
  score : Option ℤ
  summary : String
  insights : List FinanceInsight
  nextActions : List NextAction
  metrics : EvaluationMetrics
deriving DecidableEq

/-- `pct(n) = Math.round(n * 100)` from `evaluations.ts`. -/
def pct (n : ℚ) : ℤ := jsRound (n * 100)

/-- `(s.recentTransactions?.length ?? 0) > 0`. -/
def hasAnyTx (s : DashboardSnapshot) : Bool := 0 < s.recentTransactions.length

/-- `s.points?.some(n => n !== 0) || s.series?.total?.some(n => n !== 0)`. -/
def hasAnySeries (s : DashboardSnapshot) : Bool :=
  s.points.any (fun n => n != 0) || s.series.total.any (fun n => n != 0)

/-- `currentBalance !== 0 || monthlySpend !== 0 || savingsRate !== 0`. -/
def hasAnyKpiSignal (s : DashboardSnapshot) : Bool :=
  (s.kpis.currentBalance != 0) || (s.kpis.monthlySpend != 0) || (s.kpis.savingsRate != 0)

/-- The `noData` test of `buildFinanceEvaluation`. -/
def noDataCond (s : DashboardSnapshot) : Bool :=
  !hasAnyTx s && !hasAnySeries s && !hasAnyKpiSignal s

/-- `top1Share`: present when a spending summary exists with positive
spend and a nonempty `topCategories`; the leading share clamped to
`[0, 1]`. -/
def computeTop1Share (o : Option SpendingSummary) : Option ℚ :=
  match o with
  | none => none
  | some ss =>
      if 0 < ss.spend then
        match ss.topCategories with
        | [] => none
        | t1 :: _ => some (clamp (t1.amount / ss.spend) 0 1)
      else none

/-- Condition of the "Income not detected" insight:
`savingsRate === 0 && spendingSummary?.income === 0 &&
spendingSummary?.spend > 0`. -/
def incomeNotDetected (savingsRate : ℚ) (o : Option SpendingSummary) : Bool :=
  decide (savingsRate = 0) &&
    (match o with
     | some ss => decide (ss.income = 0) && decide (0 < ss.spend)
     | none => false)

/-- `buildFinanceEvaluation` from `evaluations.ts`. -/
def buildFinanceEvaluation (s : DashboardSnapshot)
    (o : Option SpendingSummary) : FinanceEvaluation :=
  if noDataCond s then
    { status := "no_data"
      score := none
      summary := "No finance data yet. Link a card and connect a bank account to see spending, trends, and insights."
      insights := [⟨"info", "Connect your accounts",
        "Go to /banking to link a card (Stripe) and connect transaction history (Plaid)."⟩]
      nextActions := [⟨"Connect a card and bank", "/banking"⟩, ⟨"View dashboard", "/dashboard"⟩]
      metrics := ⟨0, 0, 0, 0, 0, 0, none⟩ }
  else
    let monthlySpend := s.kpis.monthlySpend
    let savingsRate := s.kpis.savingsRate
    let spendTrend := s.kpis.monthlySpendTrendPct
    let balanceTrend := s.kpis.currentBalanceTrendPct
    let top1Share := computeTop1Share o
    let score1 : ℚ := 50 + clamp ((savingsRate - 0.2) * 120) (-30) 40
    let score2 := score1 + clamp ((-spendTrend) * 25) (-15) 15
    let score3 := score2 + clamp (balanceTrend * 20) (-10) 10
    let score4 :=
      match top1Share with
      | some t => score3 - clamp ((t - 0.35) * 40) 0 12
      | none => score3
    let score := jsRound (clamp score4 0 100)
    let insightsIncome : List FinanceInsight :=
      if incomeNotDetected savingsRate o then
        [⟨"warn", "Income not detected",
          "Your connected data shows spending but no income in this timeframe. If you only connected credit accounts, income may not appear."⟩]
      else []
    let insightsTrend : List FinanceInsight :=
      if 0.15 < spendTrend then
        [⟨"risk", "Spending is trending up",
          "Spending is up about " ++ toString (pct spendTrend)
            ++ "% vs the previous period. Consider reviewing top categories and recurring charges."⟩]
      else if spendTrend < -0.15 then
        [⟨"info", "Spending is trending down",
          "Nice — spending is down about " ++ toString (pct (-spendTrend))
            ++ "% vs the previous period."⟩]
      else []
    let insightsBills : List FinanceInsight :=
      if 0 < s.kpis.upcomingBills then
        [⟨"info", "Upcoming bills estimate",
          "Estimated upcoming bills: " ++ toString (jsRound s.kpis.upcomingBills)
            ++ " due in ~" ++ toString s.kpis.upcomingBillsDueInDays ++ " days."⟩]
      else []
    let insightsConc : List FinanceInsight :=
      match top1Share, o with
      | some t, some ss =>
          if 0.5 < t then
            [⟨"warn", "Spending is concentrated",
              "Top category (" ++ (ss.topCategories.headD ⟨"", 0⟩).category
                ++ ") is ~" ++ toString (pct t) ++ "% of spend in this timeframe."⟩]
          else []
      | _, _ => []
    let summaryParts :=
      ["Health score: " ++ toString score ++ "/100.",
       "Monthly spend: " ++ toString (jsRound monthlySpend) ++ ".",
       "Savings rate: " ++ toString (pct savingsRate) ++ "%."] ++
      (match top1Share with
       | some t => ["Top category share: " ++ toString (pct t) ++ "%."]
       | none => [])
    { status := "ok"
      score := some score
      summary := String.intercalate " " summaryParts
      insights := insightsIncome ++ insightsTrend ++ insightsBills ++ insightsConc
      nextActions := [⟨"View dashboard", "/dashboard"⟩, ⟨"Manage connections", "/banking"⟩]
      metrics :=
        { monthlySpend := monthlySpend
          monthlySpendTrendPct := spendTrend
          currentBalance := s.kpis.currentBalance
          currentBalanceTrendPct := balanceTrend
          savingsRate := savingsRate
          upcomingBillsEstimate := s.kpis.upcomingBills
          categoryConcentrationTop1Pct := top1Share } }

/-! ### General helper lemmas -/

theorem jsRound_zero : jsRound 0 = 0 := by norm_num [jsRound]

theorem clamp_zero {mn mx : ℚ} (h1 : mn ≤ 0) (h2 : 0 ≤ mx) : clamp 0 mn mx = 0 := by
  rw [clamp, min_eq_right h2, max_eq_right h1]

theorem clamp_mem {n mn mx : ℚ} (h : mn ≤ mx) :
    mn ≤ clamp n mn mx ∧ clamp n mn mx ≤ mx := by
  constructor
  · exact le_max_left _ _
  · exact max_le h (min_le_left _ _)

theorem range_map_getD {β : Type} (n : ℕ) (f : ℕ → β) (i : ℕ) (d : β) (h : i < n) :
    ((List.range n).map f).getD i d = f i := by
  rw [List.getD_eq_getElem _ _ (by simpa using h)]
  simp

theorem chartAcc_nil (startMs endMs : ℤ) (segmentMs : ℚ) (len : ℕ) :
    chartAcc startMs endMs segmentMs len [] = BucketAcc.zero := rfl

/-! ### C1: empty-input snapshot versus the zero snapshot -/

/-- C1 counterexample: with empty accounts and transactions the built
snapshot and the zero snapshot do NOT have identical KPI blocks — the
built snapshot always sets `upcomingBillsDueInDays` to the fixed constant
`7`, while the zero snapshot sets it to `0`. -/
theorem buildEmpty_kpis_differ :
    ¬ (buildDashboardSnapshotFromTransactions .P1W [] [] 0).kpis =
      (buildZeroDashboardSnapshot .P1W).kpis := by
  intro h
  have h7 : (7 : ℚ) = 0 := congrArg DashboardKpis.upcomingBillsDueInDays h
  exact absurd h7 (by norm_num)

/-- C1 (amended): for every period and every `now`, building from empty
accounts and transactions agrees with the zero snapshot on every field —
labels, all-zero series of the configured bucket count, currency code,
recent transactions, and every KPI — except `upcomingBillsDueInDays`,
which is `0` in the zero snapshot and the fixed constant `7` in the built
snapshot. -/
theorem buildEmpty_agrees_with_zero_except_dueDays (p : FinancePeriod) (now : ℤ) :
    buildDashboardSnapshotFromTransactions p [] [] now =
      { buildZeroDashboardSnapshot p with
        kpis := { (buildZeroDashboardSnapshot p).kpis with upcomingBillsDueInDays := 7 } } := by
  unfold buildDashboardSnapshotFromTransactions buildZeroDashboardSnapshot
  norm_num [chartAcc_nil, BucketAcc.zero, jsRound_zero, List.map_const',
    sumRange, clamp_zero, inferCurrencyCodeFromAccounts, accumulateCounts,
    selectBest, normalizeCurrencyCode, trimStr, upperStr, sortByDateDesc]

/-! ### C2: chart bucketing characterization -/

/-- The chart window start `now - windowDays` in milliseconds. -/
def windowStartMs (p : FinancePeriod) (now : ℤ) : ℤ :=
  now - (getBucketConfig p).windowDays * 24 * 60 * 60 * 1000

/-- The equal bucket width `(endMs - startMs) / len` in milliseconds. -/
def bucketWidthMs (p : FinancePeriod) (now : ℤ) : ℚ :=
  ((now - windowStartMs p now : ℤ) : ℚ) / ((getBucketConfig p).len : ℚ)

/-- A transaction contributes to bucket `i` of the chart: it is an
expense (`amount < 0`), its timestamp lies in `[startMs, endMs)`, and its
clamped floor bucket index is `i`. -/
def chartContrib (startMs endMs : ℤ) (seg : ℚ) (len i : ℕ) (t : TxLike) : Bool :=
  decide (t.amount < 0) && decide (startMs ≤ t.date) && decide (t.date < endMs) &&
    (txBucketIndex startMs seg len t.date == i)

/-- Sum of expense magnitudes over the transactions selected by `P`. -/
def spendSum (txs : List TxLike) (P : TxLike → Bool) : ℚ :=
  ((txs.filter P).map (fun t => -t.amount)).sum

theorem spendSum_nil (P : TxLike → Bool) : spendSum [] P = 0 := rfl

theorem spendSum_cons (P : TxLike → Bool) (t : TxLike) (ts : List TxLike) :
    spendSum (t :: ts) P = (if P t then -t.amount else 0) + spendSum ts P := by
  by_cases h : P t <;> simp [spendSum, List.filter_cons, h]

theorem chartStep_total (s e : ℤ) (seg : ℚ) (len i : ℕ) (acc : BucketAcc) (t : TxLike) :
    (chartStep s e seg len acc t).total i =
      (if chartContrib s e seg len i t then acc.total i + (-t.amount) else acc.total i) := by
  unfold chartStep chartContrib
  by_cases h1 : 0 ≤ t.amount
  · simp [h1, not_lt.mpr h1]
  · by_cases h2 : t.date < s ∨ e ≤ t.date
    · rcases h2 with h2 | h2
      · simp [h1, h2, not_le.mpr h2]
      · simp [h1, h2, not_lt.mpr h2]
    · push_neg at h2
      obtain ⟨hs, he⟩ := h2
      have ha : t.amount < 0 := lt_of_not_le h1
      rcases eq_or_ne (txBucketIndex s seg len t.date) i with hidx | hidx
      · cases hm : mapCategory t.category <;>
          simp [h1, hm, bumpAt, hidx, ha, hs, he, not_lt.mpr hs, not_le.mpr he]
      · have hidx' : ¬ i = txBucketIndex s seg len t.date := fun h => hidx h.symm
        cases hm : mapCategory t.category <;>
          simp [h1, hm, bumpAt, hidx, hidx', ha, hs, he, not_lt.mpr hs, not_le.mpr he]

theorem chartStep_essentials (s e : ℤ) (seg : ℚ) (len i : ℕ) (acc : BucketAcc) (t : TxLike) :
    (chartStep s e seg len acc t).essentials i =
      (if chartContrib s e seg len i t && (mapCategory t.category == SpendingCategory.Essentials)
        then acc.essentials i + (-t.amount) else acc.essentials i) := by
  unfold chartStep chartContrib
  by_cases h1 : 0 ≤ t.amount
  · simp [h1, not_lt.mpr h1]
  · by_cases h2 : t.date < s ∨ e ≤ t.date
    · rcases h2 with h2 | h2
      · simp [h1, h2, not_le.mpr h2]
      · simp [h1, h2, not_lt.mpr h2]
    · push_neg at h2
      obtain ⟨hs, he⟩ := h2
      have ha : t.amount < 0 := lt_of_not_le h1
      rcases eq_or_ne (txBucketIndex s seg len t.date) i with hidx | hidx
      · cases hm : mapCategory t.category <;>
          simp [h1, hm, bumpAt, hidx, ha, hs, he, not_lt.mpr hs, not_le.mpr he]
      · have hidx' : ¬ i = txBucketIndex s seg len t.date := fun h => hidx h.symm
        cases hm : mapCategory t.category <;>
          simp [h1, hm, bumpAt, hidx, hidx', ha, hs, he, not_lt.mpr hs, not_le.mpr he]

theorem chartStep_leisure (s e : ℤ) (seg : ℚ) (len i : ℕ) (acc : BucketAcc) (t : TxLike) :
    (chartStep s e seg len acc t).leisure i =
      (if chartContrib s e seg len i t && (mapCategory t.category == SpendingCategory.Leisure)
        then acc.leisure i + (-t.amount) else acc.leisure i) := by
  unfold chartStep chartContrib
  by_cases h1 : 0 ≤ t.amount
  · simp [h1, not_lt.mpr h1]
  · by_cases h2 : t.date < s ∨ e ≤ t.date
    · rcases h2 with h2 | h2
      · simp [h1, h2, not_le.mpr h2]
      · simp [h1, h2, not_lt.mpr h2]
    · push_neg at h2
      obtain ⟨hs, he⟩ := h2
      have ha : t.amount < 0 := lt_of_not_le h1
      rcases eq_or_ne (txBucketIndex s seg len t.date) i with hidx | hidx
      · cases hm : mapCategory t.category <;>
          simp [h1, hm, bumpAt, hidx, ha, hs, he, not_lt.mpr hs, not_le.mpr he]
      · have hidx' : ¬ i = txBucketIndex s seg len t.date := fun h => hidx h.symm
        cases hm : mapCategory t.category <;>
          simp [h1, hm, bumpAt, hidx, hidx', ha, hs, he, not_lt.mpr hs, not_le.mpr he]

theorem chartStep_subscriptions (s e : ℤ) (seg : ℚ) (len i : ℕ) (acc : BucketAcc) (t : TxLike) :
    (chartStep s e seg len acc t).subscriptions i =
      (if chartContrib s e seg len i t && (mapCategory t.category == SpendingCategory.Subscriptions)
        then acc.subscriptions i + (-t.amount) else acc.subscriptions i) := by
  unfold chartStep chartContrib
  by_cases h1 : 0 ≤ t.amount
  · simp [h1, not_lt.mpr h1]
  · by_cases h2 : t.date < s ∨ e ≤ t.date
    · rcases h2 with h2 | h2
      · simp [h1, h2, not_le.mpr h2]
      · simp [h1, h2, not_lt.mpr h2]
    · push_neg at h2
      obtain ⟨hs, he⟩ := h2
      have ha : t.amount < 0 := lt_of_not_le h1
      rcases eq_or_ne (txBucketIndex s seg len t.date) i with hidx | hidx
      · cases hm : mapCategory t.category <;>
          simp [h1, hm, bumpAt, hidx, ha, hs, he, not_lt.mpr hs, not_le.mpr he]
      · have hidx' : ¬ i = txBucketIndex s seg len t.date := fun h => hidx h.symm
        cases hm : mapCategory t.category <;>
          simp [h1, hm, bumpAt, hidx, hidx', ha, hs, he, not_lt.mpr hs, not_le.mpr he]

theorem chartAcc_fold_spec (s e : ℤ) (seg : ℚ) (len i : ℕ) (txs : List TxLike) :
    ∀ acc : BucketAcc,
      ((txs.foldl (chartStep s e seg len) acc).total i
          = acc.total i + spendSum txs (chartContrib s e seg len i))
      ∧ ((txs.foldl (chartStep s e seg len) acc).essentials i
          = acc.essentials i + spendSum txs (fun t =>
              chartContrib s e seg len i t && (mapCategory t.category == SpendingCategory.Essentials)))
      ∧ ((txs.foldl (chartStep s e seg len) acc).leisure i
          = acc.leisure i + spendSum txs (fun t =>
              chartContrib s e seg len i t && (mapCategory t.category == SpendingCategory.Leisure)))
      ∧ ((txs.foldl (chartStep s e seg len) acc).subscriptions i
          = acc.subscriptions i + spendSum txs (fun t =>
              chartContrib s e seg len i t && (mapCategory t.category == SpendingCategory.Subscriptions))) := by
  induction txs with
  | nil => intro acc; simp [spendSum_nil]
  | cons t ts IH =>
    intro acc
    have h := IH (chartStep s e seg len acc t)
    simp only [List.foldl_cons]
    refine ⟨?_, ?_, ?_, ?_⟩
    · rw [h.1, chartStep_total, spendSum_cons]
      by_cases hc : chartContrib s e seg len i t <;> simp [hc] <;> ring
    · rw [h.2.1, chartStep_essentials, spendSum_cons]
      by_cases hc : chartContrib s e seg len i t
          && (mapCategory t.category == SpendingCategory.Essentials) <;>
        simp [hc] <;> ring
    · rw [h.2.2.1, chartStep_leisure, spendSum_cons]
      by_cases hc : chartContrib s e seg len i t
          && (mapCategory t.category == SpendingCategory.Leisure) <;>
        simp [hc] <;> ring
    · rw [h.2.2.2, chartStep_subscriptions, spendSum_cons]
      by_cases hc : chartContrib s e seg len i t
          && (mapCategory t.category == SpendingCategory.Subscriptions) <;>
        simp [hc] <;> ring

/-- Helper: closed form of every series entry of the built snapshot. -/
theorem buildSeries_getD_spec (p : FinancePeriod) (accounts : List AccountLike)
    (txs : List TxLike) (now : ℤ) (i : ℕ) (hi : i < (getBucketConfig p).len) :
    ((buildDashboardSnapshotFromTransactions p accounts txs now).series.total.getD i 0
        = jsRound (spendSum txs
            (chartContrib (windowStartMs p now) now (bucketWidthMs p now) (getBucketConfig p).len i)))
    ∧ ((buildDashboardSnapshotFromTransactions p accounts txs now).series.essentials.getD i 0
        = jsRound (spendSum txs (fun t =>
            chartContrib (windowStartMs p now) now (bucketWidthMs p now) (getBucketConfig p).len i t
              && (mapCategory t.category == SpendingCategory.Essentials))))
    ∧ ((buildDashboardSnapshotFromTransactions p accounts txs now).series.leisure.getD i 0
        = jsRound (spendSum txs (fun t =>
            chartContrib (windowStartMs p now) now (bucketWidthMs p now) (getBucketConfig p).len i t
              && (mapCategory t.category == SpendingCategory.Leisure))))
    ∧ ((buildDashboardSnapshotFromTransactions p accounts txs now).series.subscriptions.getD i 0
        = jsRound (spendSum txs (fun t =>
            chartContrib (windowStartMs p now) now (bucketWidthMs p now) (getBucketConfig p).len i t
              && (mapCategory t.category == SpendingCategory.Subscriptions)))) := by
  have hspec := chartAcc_fold_spec (windowStartMs p now) now (bucketWidthMs p now)
    (getBucketConfig p).len i txs BucketAcc.zero
  have hz : ∀ j, BucketAcc.zero.total j = 0 := fun _ => rfl
  refine ⟨?_, ?_, ?_, ?_⟩ <;>
    simp only [buildDashboardSnapshotFromTransactions, windowStartMs, bucketWidthMs,
      chartAcc] at hspec ⊢ <;>
    rw [range_map_getD _ _ _ _ hi]
  · rw [hspec.1]; simp [BucketAcc.zero]
  · rw [hspec.2.1]; simp [BucketAcc.zero]
  · rw [hspec.2.2.1]; simp [BucketAcc.zero]
  · rw [hspec.2.2.2]; simp [BucketAcc.zero]

/-- C2: the chart counts exactly the in-window expense transactions.
For every input and bucket `i < bucketCount`, each series entry is the
rounded sum of the magnitudes of exactly those expense transactions
(`amount < 0`) whose timestamp lies in `[now - windowDays, now)` and
whose bucket index `floor((txTime - windowStart) / bucketWidth)` clamped
to `[0, bucketCount-1]` equals `i`; the category series select those
transactions additionally by the case-insensitive keyword classification
`mapCategory` (Subscriptions / Leisure / Essentials); income and
out-of-window transactions contribute to no bucket. -/
theorem chart_series_counts_expenses (p : FinancePeriod) (accounts : List AccountLike)
    (txs : List TxLike) (now : ℤ) (i : ℕ) (hi : i < (getBucketConfig p).len) :
    ((buildDashboardSnapshotFromTransactions p accounts txs now).series.total.getD i 0
        = jsRound (spendSum txs
            (chartContrib (windowStartMs p now) now (bucketWidthMs p now) (getBucketConfig p).len i)))
    ∧ ((buildDashboardSnapshotFromTransactions p accounts txs now).series.essentials.getD i 0
        = jsRound (spendSum txs (fun t =>
            chartContrib (windowStartMs p now) now (bucketWidthMs p now) (getBucketConfig p).len i t
              && (mapCategory t.category == SpendingCategory.Essentials))))
    ∧ ((buildDashboardSnapshotFromTransactions p accounts txs now).series.leisure.getD i 0
        = jsRound (spendSum txs (fun t =>
            chartContrib (windowStartMs p now) now (bucketWidthMs p now) (getBucketConfig p).len i t
              && (mapCategory t.category == SpendingCategory.Leisure))))
    ∧ ((buildDashboardSnapshotFromTransactions p accounts txs now).series.subscriptions.getD i 0
        = jsRound (spendSum txs (fun t =>
            chartContrib (windowStartMs p now) now (bucketWidthMs p now) (getBucketConfig p).len i t
              && (mapCategory t.category == SpendingCategory.Subscriptions)))) :=
  buildSeries_getD_spec p accounts txs now i hi

/-- C2 witness: a single in-window expense of magnitude 50 with no
category label lands in bucket 0 of the one-week chart, in `total` and in
`essentials`. -/
theorem chart_series_counts_expenses_witness :
    (0 : ℕ) < (getBucketConfig .P1W).len ∧
    (buildDashboardSnapshotFromTransactions .P1W []
        [⟨"t1", 0, "rent", none, -50, none⟩] 604800000).series.total.getD 0 0 = 50 ∧
    (buildDashboardSnapshotFromTransactions .P1W []
        [⟨"t1", 0, "rent", none, -50, none⟩] 604800000).series.essentials.getD 0 0 = 50 := by
  have h := chart_series_counts_expenses .P1W []
    [⟨"t1", 0, "rent", none, -50, none⟩] 604800000 0 (by norm_num [getBucketConfig])
  refine ⟨by norm_num [getBucketConfig], ?_, ?_⟩
  · rw [h.1]
    norm_num [spendSum, chartContrib, windowStartMs, bucketWidthMs, getBucketConfig,
      txBucketIndex, List.filter, jsRound]
  · rw [h.2.1]
    norm_num [spendSum, chartContrib, windowStartMs, bucketWidthMs, getBucketConfig,
      txBucketIndex, List.filter, jsRound,
      show mapCategory none = SpendingCategory.Essentials from by decide]

/-! ### C3: total versus category sum, up to independent rounding -/

theorem jsRound_sum3_close (a b c : ℚ) :
    |jsRound (a + b + c) - (jsRound a + jsRound b + jsRound c)| ≤ 1 := by
  have fa1 : ((jsRound a : ℤ) : ℚ) ≤ a + 1/2 := by simp only [jsRound]; exact Int.floor_le _
  have fa2 : a + 1/2 - 1 < ((jsRound a : ℤ) : ℚ) := by
    simp only [jsRound]; exact Int.sub_one_lt_floor _
  have fb1 : ((jsRound b : ℤ) : ℚ) ≤ b + 1/2 := by simp only [jsRound]; exact Int.floor_le _
  have fb2 : b + 1/2 - 1 < ((jsRound b : ℤ) : ℚ) := by
    simp only [jsRound]; exact Int.sub_one_lt_floor _
  have fc1 : ((jsRound c : ℤ) : ℚ) ≤ c + 1/2 := by simp only [jsRound]; exact Int.floor_le _
  have fc2 : c + 1/2 - 1 < ((jsRound c : ℤ) : ℚ) := by
    simp only [jsRound]; exact Int.sub_one_lt_floor _
  have fs1 : ((jsRound (a + b + c) : ℤ) : ℚ) ≤ (a + b + c) + 1/2 := by
    simp only [jsRound]; exact Int.floor_le _
  have fs2 : (a + b + c) + 1/2 - 1 < ((jsRound (a + b + c) : ℤ) : ℚ) := by
    simp only [jsRound]; exact Int.sub_one_lt_floor _
  have hlt : ((jsRound (a + b + c) - (jsRound a + jsRound b + jsRound c) : ℤ) : ℚ) < 2 := by
    push_cast
    linarith
  have hgt : (-2 : ℚ) < ((jsRound (a + b + c) - (jsRound a + jsRound b + jsRound c) : ℤ) : ℚ) := by
    push_cast
    linarith
  have hlt' : jsRound (a + b + c) - (jsRound a + jsRound b + jsRound c) < 2 := by
    exact_mod_cast hlt
  have hgt' : -2 < jsRound (a + b + c) - (jsRound a + jsRound b + jsRound c) := by
    exact_mod_cast hgt
  rw [abs_le]
  omega

/-- Every selected expense lands in exactly one of the three categories,
so the pre-rounding total is the sum of the three pre-rounding category
accumulations. -/
theorem spendSum_partition (txs : List TxLike) (P : TxLike → Bool) :
    spendSum txs P =
      spendSum txs (fun t => P t && (mapCategory t.category == SpendingCategory.Essentials)) +
      spendSum txs (fun t => P t && (mapCategory t.category == SpendingCategory.Leisure)) +
      spendSum txs (fun t => P t && (mapCategory t.category == SpendingCategory.Subscriptions)) := by
  induction txs with
  | nil => simp [spendSum_nil]
  | cons t ts IH =>
    rw [spendSum_cons, spendSum_cons, spendSum_cons, spendSum_cons]
    cases hm : mapCategory t.category <;> by_cases hp : P t <;>
      simp only [hm, hp, Bool.true_and, Bool.false_and, if_true, if_false] <;>
      simp <;> linarith [IH]

/-- C3: for every input and every bucket `i`, the rounded `total` entry
differs from the sum of the three rounded category entries by at most 1
in absolute value (total and categories are rounded independently after
accumulation). -/
theorem series_total_close_to_category_sum (p : FinancePeriod)
    (accounts : List AccountLike) (txs : List TxLike) (now : ℤ) (i : ℕ)
    (hi : i < (getBucketConfig p).len) :
    |(buildDashboardSnapshotFromTransactions p accounts txs now).series.total.getD i 0
      - ((buildDashboardSnapshotFromTransactions p accounts txs now).series.essentials.getD i 0
        + (buildDashboardSnapshotFromTransactions p accounts txs now).series.leisure.getD i 0
        + (buildDashboardSnapshotFromTransactions p accounts txs now).series.subscriptions.getD i 0)| ≤ 1 := by
  obtain ⟨hT, hE, hL, hS⟩ := buildSeries_getD_spec p accounts txs now i hi
  rw [hT, hE, hL, hS, spendSum_partition txs
    (chartContrib (windowStartMs p now) now (bucketWidthMs p now) (getBucketConfig p).len i)]
  exact jsRound_sum3_close _ _ _

/-- C3 witness: the bound at a concrete input (one expense, bucket 0 of
the one-week chart). -/
theorem series_total_close_to_category_sum_witness :
    (0 : ℕ) < (getBucketConfig .P1W).len ∧
    |(buildDashboardSnapshotFromTransactions .P1W []
        [⟨"t1", 0, "rent", none, -50, none⟩] 604800000).series.total.getD 0 0
      - ((buildDashboardSnapshotFromTransactions .P1W []
          [⟨"t1", 0, "rent", none, -50, none⟩] 604800000).series.essentials.getD 0 0
        + (buildDashboardSnapshotFromTransactions .P1W []
          [⟨"t1", 0, "rent", none, -50, none⟩] 604800000).series.leisure.getD 0 0
        + (buildDashboardSnapshotFromTransactions .P1W []
          [⟨"t1", 0, "rent", none, -50, none⟩] 604800000).series.subscriptions.getD 0 0)| ≤ 1 :=
  ⟨by norm_num [getBucketConfig],
    series_total_close_to_category_sum .P1W []
      [⟨"t1", 0, "rent", none, -50, none⟩] 604800000 0 (by norm_num [getBucketConfig])⟩

/-! ### C4: KPI clamping bounds -/

/-- The trailing-30-day sums used by the KPI computation. -/
def kpiThis30 (txs : List TxLike) (now : ℤ) : RangeSums :=
  sumRange txs (now - 30 * 24 * 60 * 60 * 1000) now

/-- The prior-30-day sums used by the KPI computation. -/
def kpiPrev30 (txs : List TxLike) (now : ℤ) : RangeSums :=
  sumRange txs (now - 2 * (30 * 24 * 60 * 60 * 1000)) (now - 30 * 24 * 60 * 60 * 1000)

/-- Aggregate current balance over the supplied accounts. -/
def kpiCurrentBalance (accounts : List AccountLike) : ℚ :=
  accounts.foldl (fun s a => s + a.currentBalance.getD 0) 0

/-- Net amount of the transactions of the trailing 7 days. -/
def kpiNet7 (txs : List TxLike) (now : ℤ) : ℚ :=
  ((txs.filter (fun t => now - 7 * 24 * 60 * 60 * 1000 ≤ t.date)).map (fun t => t.amount)).sum

/-- The balance-trend denominator `priorBalance = currentBalance - net7`. -/
def kpiPriorBalance (accounts : List AccountLike) (txs : List TxLike) (now : ℤ) : ℚ :=
  kpiCurrentBalance accounts - kpiNet7 txs now

/-- C4: for every input, `savingsRate ∈ [0, 0.95]`,
`monthlySpendTrendPct ∈ [-0.9, 0.9]`, `currentBalanceTrendPct ∈ [-0.5, 0.5]`
and `savingsRateTrendPctPoints ∈ [-50, 50]`; moreover each ratio is `0`
when its denominator is `0` (prior-30-day spend, prior balance, and
trailing-30-day income respectively). -/
theorem kpi_bounds (p : FinancePeriod) (accounts : List AccountLike)
    (txs : List TxLike) (now : ℤ) :
    (0 ≤ (buildDashboardSnapshotFromTransactions p accounts txs now).kpis.savingsRate
      ∧ (buildDashboardSnapshotFromTransactions p accounts txs now).kpis.savingsRate ≤ 0.95)
    ∧ (-0.9 ≤ (buildDashboardSnapshotFromTransactions p accounts txs now).kpis.monthlySpendTrendPct
      ∧ (buildDashboardSnapshotFromTransactions p accounts txs now).kpis.monthlySpendTrendPct ≤ 0.9)
    ∧ (-0.5 ≤ (buildDashboardSnapshotFromTransactions p accounts txs now).kpis.currentBalanceTrendPct
      ∧ (buildDashboardSnapshotFromTransactions p accounts txs now).kpis.currentBalanceTrendPct ≤ 0.5)
    ∧ (-50 ≤ (buildDashboardSnapshotFromTransactions p accounts txs now).kpis.savingsRateTrendPctPoints
      ∧ (buildDashboardSnapshotFromTransactions p accounts txs now).kpis.savingsRateTrendPctPoints ≤ 50)
    ∧ ((kpiPrev30 txs now).spend = 0 →
      (buildDashboardSnapshotFromTransactions p accounts txs now).kpis.monthlySpendTrendPct = 0)
    ∧ (kpiPriorBalance accounts txs now = 0 →
      (buildDashboardSnapshotFromTransactions p accounts txs now).kpis.currentBalanceTrendPct = 0)
    ∧ ((kpiThis30 txs now).income = 0 →
      (buildDashboardSnapshotFromTransactions p accounts txs now).kpis.savingsRate = 0) := by
  refine ⟨⟨?_, ?_⟩, ⟨?_, ?_⟩, ⟨?_, ?_⟩, ⟨?_, ?_⟩, ?_, ?_, ?_⟩ <;>
    simp only [buildDashboardSnapshotFromTransactions, kpiThis30, kpiPrev30,
      kpiPriorBalance, kpiCurrentBalance, kpiNet7]
  · split
    · norm_num
    · exact (clamp_mem (by norm_num)).1
  · split
    · norm_num
    · exact (clamp_mem (by norm_num)).2
  · exact (clamp_mem (by norm_num)).1
  · exact (clamp_mem (by norm_num)).2
  · exact (clamp_mem (by norm_num)).1
  · exact (clamp_mem (by norm_num)).2
  · exact (clamp_mem (by norm_num)).1
  · exact (clamp_mem (by norm_num)).2
  · intro h
    rw [if_pos h]
    exact clamp_zero (by norm_num) (by norm_num)
  · intro h
    rw [if_pos h]
    exact clamp_zero (by norm_num) (by norm_num)
  · intro h
    rw [if_pos h]

/-- C4 witness: with empty inputs all three denominators are zero and the
corresponding KPIs evaluate to zero, inside the stated bounds. -/
theorem kpi_bounds_witness :
    (kpiPrev30 [] 0).spend = 0 ∧
    kpiPriorBalance [] [] 0 = 0 ∧
    (kpiThis30 [] 0).income = 0 ∧
    (buildDashboardSnapshotFromTransactions .P1W [] [] 0).kpis.monthlySpendTrendPct = 0 ∧
    (buildDashboardSnapshotFromTransactions .P1W [] [] 0).kpis.currentBalanceTrendPct = 0 ∧
    (buildDashboardSnapshotFromTransactions .P1W [] [] 0).kpis.savingsRate = 0 ∧
    0 ≤ (buildDashboardSnapshotFromTransactions .P1W [] [] 0).kpis.savingsRate := by
  have h := kpi_bounds .P1W [] [] 0
  have h1 : (kpiPrev30 ([] : List TxLike) 0).spend = 0 := rfl
  have h2 : kpiPriorBalance [] [] 0 = 0 := by
    norm_num [kpiPriorBalance, kpiCurrentBalance, kpiNet7]
  have h3 : (kpiThis30 ([] : List TxLike) 0).income = 0 := rfl
  exact ⟨h1, h2, h3, h.2.2.2.2.1 h1, h.2.2.2.2.2.1 h2, h.2.2.2.2.2.2 h3, h.1.1⟩

/-! ### C6: no-data detection -/

/-- The boolean no-data test holds exactly when the snapshot has no
recent transactions, all-zero `points` and `series.total`, and zero
balance, monthly spend and savings rate. -/
theorem noDataCond_iff (s : DashboardSnapshot) :
    noDataCond s = true ↔
      (s.recentTransactions = [] ∧ (∀ x ∈ s.points, x = 0) ∧ (∀ x ∈ s.series.total, x = 0)
        ∧ s.kpis.currentBalance = 0 ∧ s.kpis.monthlySpend = 0 ∧ s.kpis.savingsRate = 0) := by
  unfold noDataCond hasAnyTx hasAnySeries hasAnyKpiSignal
  simp [List.length_eq_zero, not_or, List.any_eq_true, bne]
  tauto

/-- C6: `buildFinanceEvaluation` returns status `"no_data"` exactly when
the snapshot has empty `recentTransactions`, all-zero `points` and
`series.total`, and zero `currentBalance`, `monthlySpend` and
`savingsRate`; in that case the score is absent, there is exactly one
insight (severity `"info"`), and the two next actions are the fixed
links; otherwise the status is `"ok"`. -/
theorem evaluation_no_data_iff (s : DashboardSnapshot) (o : Option SpendingSummary) :
    ((buildFinanceEvaluation s o).status = "no_data" ↔
      (s.recentTransactions = [] ∧ (∀ x ∈ s.points, x = 0) ∧ (∀ x ∈ s.series.total, x = 0)
        ∧ s.kpis.currentBalance = 0 ∧ s.kpis.monthlySpend = 0 ∧ s.kpis.savingsRate = 0))
    ∧ ((buildFinanceEvaluation s o).status = "no_data" →
        (buildFinanceEvaluation s o).score = none
        ∧ (buildFinanceEvaluation s o).insights =
            [⟨"info", "Connect your accounts",
              "Go to /banking to link a card (Stripe) and connect transaction history (Plaid)."⟩]
        ∧ (buildFinanceEvaluation s o).nextActions =
            [⟨"Connect a card and bank", "/banking"⟩, ⟨"View dashboard", "/dashboard"⟩])
    ∧ ((buildFinanceEvaluation s o).status = "no_data"
        ∨ (buildFinanceEvaluation s o).status = "ok") := by
  by_cases h : noDataCond s = true
  · have hP := (noDataCond_iff s).mp h
    have hst : (buildFinanceEvaluation s o).status = "no_data" := by
      simp only [buildFinanceEvaluation, h, if_true]
    have hsc : (buildFinanceEvaluation s o).score = none := by
      simp only [buildFinanceEvaluation, h, if_true]
    have hin : (buildFinanceEvaluation s o).insights =
        [⟨"info", "Connect your accounts",
          "Go to /banking to link a card (Stripe) and connect transaction history (Plaid)."⟩] := by
      simp only [buildFinanceEvaluation, h, if_true]
    have hna : (buildFinanceEvaluation s o).nextActions =
        [⟨"Connect a card and bank", "/banking"⟩, ⟨"View dashboard", "/dashboard"⟩] := by
      simp only [buildFinanceEvaluation, h, if_true]
    exact ⟨⟨fun _ => hP, fun _ => hst⟩, fun _ => ⟨hsc, hin, hna⟩, Or.inl hst⟩
  · have hb : noDataCond s = false := by simpa using h
    have hP := (noDataCond_iff s).not.mp h
    have hst : (buildFinanceEvaluation s o).status = "ok" := by
      simp only [buildFinanceEvaluation, hb, Bool.false_eq_true, if_false]
    have hne : ¬ (buildFinanceEvaluation s o).status = "no_data" := by
      rw [hst]
      simp
    exact ⟨⟨fun hc => absurd hc hne, fun hp => absurd hp hP⟩,
      fun hc => absurd hc hne, Or.inr hst⟩

/-- C6 witness: the zero snapshot is detected as no-data, with a null
score and exactly one informational insight. -/
theorem evaluation_no_data_iff_witness :
    (buildFinanceEvaluation (buildZeroDashboardSnapshot .P1W) none).status = "no_data" ∧
    (buildFinanceEvaluation (buildZeroDashboardSnapshot .P1W) none).score = none ∧
    (buildFinanceEvaluation (buildZeroDashboardSnapshot .P1W) none).insights.length = 1 ∧
    (buildFinanceEvaluation (buildZeroDashboardSnapshot .P1W) none).insights.map
      FinanceInsight.severity = ["info"] := by
  have h := evaluation_no_data_iff (buildZeroDashboardSnapshot .P1W) none
  have hP : (buildZeroDashboardSnapshot .P1W).recentTransactions = []
      ∧ (∀ x ∈ (buildZeroDashboardSnapshot .P1W).points, x = 0)
      ∧ (∀ x ∈ (buildZeroDashboardSnapshot .P1W).series.total, x = 0)
      ∧ (buildZeroDashboardSnapshot .P1W).kpis.currentBalance = 0
      ∧ (buildZeroDashboardSnapshot .P1W).kpis.monthlySpend = 0
      ∧ (buildZeroDashboardSnapshot .P1W).kpis.savingsRate = 0 := by
    refine ⟨rfl, ?_, ?_, rfl, rfl, rfl⟩ <;>
      · intro x hx
        simp only [buildZeroDashboardSnapshot] at hx
        exact List.eq_of_mem_replicate hx
  have hst := h.1.mpr hP
  have hrest := h.2.1 hst
  refine ⟨hst, hrest.1, ?_, ?_⟩
  · rw [hrest.2.1]
    rfl
  · rw [hrest.2.1]
    rfl

/-! ### C7: the health-score formula -/

theorem jsRound_nonneg {y : ℚ} (h0 : 0 ≤ y) : 0 ≤ jsRound y := by
  simp only [jsRound]
  exact Int.le_floor.mpr (by push_cast; linarith)

theorem jsRound_le_hundred {y : ℚ} (h100 : y ≤ 100) : jsRound y ≤ 100 := by
  simp only [jsRound]
  have : ⌊y + 1/2⌋ < 101 := Int.floor_lt.mpr (by push_cast; linarith)
  omega

/-- C7: with data present, the score equals the claimed clamped formula
(50 plus the three independently clamped adjustment terms, minus the
concentration penalty when `top1Share` is present), rounded after a final
clamp to `[0, 100]`, and always lies in `[0, 100]`. -/
theorem evaluation_score_formula (s : DashboardSnapshot) (o : Option SpendingSummary)
    (h : noDataCond s = false) :
    (buildFinanceEvaluation s o).score =
      some (jsRound (clamp
        (50 + clamp ((s.kpis.savingsRate - 0.2) * 120) (-30) 40
          + clamp ((-s.kpis.monthlySpendTrendPct) * 25) (-15) 15
          + clamp (s.kpis.currentBalanceTrendPct * 20) (-10) 10
          - (match computeTop1Share o with
             | some t => clamp ((t - 0.35) * 40) 0 12
             | none => 0))
        0 100))
    ∧ (0 ≤ jsRound (clamp
        (50 + clamp ((s.kpis.savingsRate - 0.2) * 120) (-30) 40
          + clamp ((-s.kpis.monthlySpendTrendPct) * 25) (-15) 15
          + clamp (s.kpis.currentBalanceTrendPct * 20) (-10) 10
          - (match computeTop1Share o with
             | some t => clamp ((t - 0.35) * 40) 0 12
             | none => 0))
        0 100))
    ∧ (jsRound (clamp
        (50 + clamp ((s.kpis.savingsRate - 0.2) * 120) (-30) 40
          + clamp ((-s.kpis.monthlySpendTrendPct) * 25) (-15) 15
          + clamp (s.kpis.currentBalanceTrendPct * 20) (-10) 10
          - (match computeTop1Share o with
             | some t => clamp ((t - 0.35) * 40) 0 12
             | none => 0))
        0 100) ≤ 100) := by
  refine ⟨?_, jsRound_nonneg (clamp_mem (by norm_num)).1,
    jsRound_le_hundred (clamp_mem (by norm_num)).2⟩
  simp only [buildFinanceEvaluation, h, Bool.false_eq_true, if_false]
  cases ht : computeTop1Share o <;> simp [ht, sub_zero]

/-- A snapshot with data (nonzero balance), savings rate exactly at the
20% target, and both trends zero. -/
def sampleOkSnapshot : DashboardSnapshot :=
  { period := .P1M, currencyCode := none, labels := [], series := ⟨[], [], [], []⟩,
    points := [], kpis := ⟨100, 0, 0, 0, 0.2, 0, 0, 7⟩, recentTransactions := [] }

/-- C7 witness: at `savingsRate = 0.20`, zero trends and no spending
summary, the score is exactly 50. -/
theorem evaluation_score_formula_witness :
    noDataCond sampleOkSnapshot = false ∧
    (buildFinanceEvaluation sampleOkSnapshot none).score = some 50 := by
  have hb : noDataCond sampleOkSnapshot = false := by
    norm_num [noDataCond, hasAnyTx, hasAnySeries, hasAnyKpiSignal, sampleOkSnapshot, bne]
  have h := (evaluation_score_formula sampleOkSnapshot none hb).1
  refine ⟨hb, ?_⟩
  rw [h]
  norm_num [sampleOkSnapshot, computeTop1Share, clamp, jsRound, min_def, max_def]

/-! ### C9: the metrics block echoes the snapshot KPIs -/

/-- C9: with data present, every metrics field equals the corresponding
snapshot KPI unchanged, and `categoryConcentrationTop1Pct` is the leading
category share clamped to `[0, 1]`, or `null` when the summary is absent,
its spend is not positive, or it has no categories. -/
theorem evaluation_metrics_echo (s : DashboardSnapshot) (o : Option SpendingSummary)
    (h : noDataCond s = false) :
    ((buildFinanceEvaluation s o).metrics.monthlySpend = s.kpis.monthlySpend)
    ∧ ((buildFinanceEvaluation s o).metrics.monthlySpendTrendPct = s.kpis.monthlySpendTrendPct)
    ∧ ((buildFinanceEvaluation s o).metrics.currentBalance = s.kpis.currentBalance)
    ∧ ((buildFinanceEvaluation s o).metrics.currentBalanceTrendPct = s.kpis.currentBalanceTrendPct)
    ∧ ((buildFinanceEvaluation s o).metrics.savingsRate = s.kpis.savingsRate)
    ∧ ((buildFinanceEvaluation s o).metrics.upcomingBillsEstimate = s.kpis.upcomingBills)
    ∧ ((buildFinanceEvaluation s o).metrics.categoryConcentrationTop1Pct =
        (match o with
         | none => none
         | some ss =>
            if 0 < ss.spend then
              (match ss.topCategories with
               | [] => none
               | t1 :: _ => some (clamp (t1.amount / ss.spend) 0 1))
            else none)) := by
  simp only [buildFinanceEvaluation, h, Bool.false_eq_true, if_false]
  simp [computeTop1Share]

/-- C9 witness: concrete snapshot and summary; the KPIs are echoed and
the leading share is `3/4`. -/
theorem evaluation_metrics_echo_witness :
    noDataCond sampleOkSnapshot = false ∧
    (buildFinanceEvaluation sampleOkSnapshot
      (some ⟨"PAST_30_DAYS", 10, 4, 6, [⟨"Groceries", 3⟩]⟩)).metrics.savingsRate = 0.2 ∧
    (buildFinanceEvaluation sampleOkSnapshot
      (some ⟨"PAST_30_DAYS", 10, 4, 6, [⟨"Groceries", 3⟩]⟩)).metrics.currentBalance = 100 ∧
    (buildFinanceEvaluation sampleOkSnapshot
      (some ⟨"PAST_30_DAYS", 10, 4, 6,
        [⟨"Groceries", 3⟩]⟩)).metrics.categoryConcentrationTop1Pct = some (3/4) := by
  have hb : noDataCond sampleOkSnapshot = false := by
    norm_num [noDataCond, hasAnyTx, hasAnySeries, hasAnyKpiSignal, sampleOkSnapshot, bne]
  have h := evaluation_metrics_echo sampleOkSnapshot
    (some ⟨"PAST_30_DAYS", 10, 4, 6, [⟨"Groceries", 3⟩]⟩) hb
  refine ⟨hb, ?_, ?_, ?_⟩
  · rw [h.2.2.2.2.1]
    rfl
  · rw [h.2.2.1]
    rfl
  · rw [h.2.2.2.2.2.2]
    norm_num [clamp, min_def, max_def]

/-! ### C10: insight-list invariants -/

/-- C10: with data present, at most four insights are produced, every
severity is `"info"`, `"warn"` or `"risk"`, and the rising-spend and
falling-spend insights never appear together (they are the two branches
of one conditional). -/
theorem evaluation_insights_invariants (s : DashboardSnapshot) (o : Option SpendingSummary)
    (h : (buildFinanceEvaluation s o).status = "ok") :
    (buildFinanceEvaluation s o).insights.length ≤ 4
    ∧ (∀ ins ∈ (buildFinanceEvaluation s o).insights,
        ins.severity = "info" ∨ ins.severity = "warn" ∨ ins.severity = "risk")
    ∧ ¬ ((∃ ins ∈ (buildFinanceEvaluation s o).insights, ins.title = "Spending is trending up")
        ∧ (∃ ins ∈ (buildFinanceEvaluation s o).insights,
            ins.title = "Spending is trending down")) := by
  have hb : noDataCond s = false := by
    by_cases hb : noDataCond s = true
    · exfalso
      have hst : (buildFinanceEvaluation s o).status = "no_data" := by
        simp only [buildFinanceEvaluation, hb, if_true]
      rw [hst] at h
      exact absurd h (by simp)
    · simpa using hb
  simp only [buildFinanceEvaluation, hb, Bool.false_eq_true, if_false]
  refine ⟨?_, ?_, ?_⟩ <;>
    rcases o with _ | ss
  · simp only [computeTop1Share]
    split_ifs <;> simp <;> (try split_ifs) <;> (try simp)
  · rcases hts : ss.topCategories with _ | ⟨t1, ts⟩ <;>
      simp only [computeTop1Share, hts] <;> split_ifs <;> simp <;>
        (try split_ifs) <;> (try simp)
  · simp only [computeTop1Share]
    split_ifs <;> simp <;> (try split_ifs) <;> (try simp)
  · rcases hts : ss.topCategories with _ | ⟨t1, ts⟩ <;>
      simp only [computeTop1Share, hts] <;> split_ifs <;> simp <;>
        (try split_ifs) <;> (try simp)
  · simp only [computeTop1Share]
    split_ifs <;> simp <;> (try split_ifs) <;> (try simp)
  · rcases hts : ss.topCategories with _ | ⟨t1, ts⟩ <;>
      simp only [computeTop1Share, hts] <;> split_ifs <;> simp <;>
        (try split_ifs) <;> (try simp)

/-- A snapshot with data, a rising spend trend of 20% and a positive
bills estimate. -/
def sampleTrendingSnapshot : DashboardSnapshot :=
  { period := .P1M, currencyCode := none, labels := [], series := ⟨[], [], [], []⟩,
    points := [], kpis := ⟨100, 0, 0, 0.2, 0.2, 0, 5, 7⟩, recentTransactions := [] }

/-- C10 witness: a concrete snapshot with data satisfies the insight
invariants. -/
theorem evaluation_insights_invariants_witness :
    (buildFinanceEvaluation sampleTrendingSnapshot none).status = "ok" ∧
    (buildFinanceEvaluation sampleTrendingSnapshot none).insights.length ≤ 4 := by
  have hb : noDataCond sampleTrendingSnapshot = false := by
    norm_num [noDataCond, hasAnyTx, hasAnySeries, hasAnyKpiSignal, sampleTrendingSnapshot, bne]
  have hst : (buildFinanceEvaluation sampleTrendingSnapshot none).status = "ok" := by
    simp only [buildFinanceEvaluation, hb, Bool.false_eq_true, if_false]
  have h := evaluation_insights_invariants sampleTrendingSnapshot none hst
  exact ⟨hst, h.1⟩

/-! ### Association-map infrastructure (shared by C5 and C8)

JS `Map` iteration order is insertion order; the embedding uses
association lists whose update keeps an existing key in place and
appends a new key at the end.  `dedupFirstAux` computes the list of
distinct values in first-occurrence order. -/

/-- The keys of an association list, in map order. -/
def keysOf {β : Type} (m : List (String × β)) : List String := m.map Prod.fst

/-- First-match lookup with default `d`. -/
def mval {β : Type} (d : β) : List (String × β) → String → β
  | [], _ => d
  | (k, b) :: rest, c => if k = c then b else mval d rest c

/-- Distinct values of a list in first-occurrence order, skipping those
already in `seen`. -/
def dedupFirstAux (seen : List String) : List String → List String
  | [] => []
  | a :: l => if a ∈ seen then dedupFirstAux seen l else a :: dedupFirstAux (a :: seen) l

theorem mem_dedupFirstAux (x : String) : ∀ (l : List String) (seen : List String),
    x ∈ dedupFirstAux seen l ↔ x ∈ l ∧ x ∉ seen := by
  intro l
  induction l with
  | nil =>
    intro seen
    simp [dedupFirstAux]
  | cons a l IH =>
    intro seen
    by_cases h : a ∈ seen
    · rw [dedupFirstAux, if_pos h, IH]
      constructor
      · rintro ⟨hx, hns⟩
        exact ⟨List.mem_cons_of_mem _ hx, hns⟩
      · rintro ⟨hx, hns⟩
        rcases List.mem_cons.mp hx with rfl | hx
        · exact absurd h hns
        · exact ⟨hx, hns⟩
    · rw [dedupFirstAux, if_neg h]
      constructor
      · intro hm
        rcases List.mem_cons.mp hm with rfl | hm
        · exact ⟨List.mem_cons_self x l, h⟩
        · have hil := (IH (a :: seen)).mp hm
          exact ⟨List.mem_cons_of_mem _ hil.1, fun hs => hil.2 (List.mem_cons_of_mem _ hs)⟩
      · rintro ⟨hx, hns⟩
        rcases List.mem_cons.mp hx with rfl | hx
        · exact List.mem_cons_self x _
        · rcases eq_or_ne x a with rfl | hxa
          · exact List.mem_cons_self x _
          · refine List.mem_cons_of_mem _ ((IH (a :: seen)).mpr ⟨hx, ?_⟩)
            intro hm
            rcases List.mem_cons.mp hm with h1 | h1
            · exact hxa h1
            · exact hns h1

theorem nodup_dedupFirstAux : ∀ (l : List String) (seen : List String),
    (dedupFirstAux seen l).Nodup := by
  intro l
  induction l with
  | nil => intro seen; simp [dedupFirstAux]
  | cons a l IH =>
    intro seen
    by_cases h : a ∈ seen
    · rw [dedupFirstAux, if_pos h]
      exact IH seen
    · rw [dedupFirstAux, if_neg h]
      refine List.nodup_cons.mpr ⟨?_, IH (a :: seen)⟩
      intro hmem
      exact ((mem_dedupFirstAux a l (a :: seen)).mp hmem).2 (List.mem_cons_self a seen)

theorem dedupFirstAux_congr : ∀ (l : List String) (s1 s2 : List String),
    (∀ x, x ∈ s1 ↔ x ∈ s2) → dedupFirstAux s1 l = dedupFirstAux s2 l := by
  intro l
  induction l with
  | nil => intro s1 s2 _; rfl
  | cons a l IH =>
    intro s1 s2 hs
    by_cases h : a ∈ s1
    · rw [dedupFirstAux, if_pos h, dedupFirstAux, if_pos ((hs a).mp h)]
      exact IH s1 s2 hs
    · rw [dedupFirstAux, if_neg h, dedupFirstAux, if_neg (fun hm => h ((hs a).mpr hm))]
      refine congrArg (a :: ·) (IH (a :: s1) (a :: s2) ?_)
      intro x
      simp only [List.mem_cons, hs x]

theorem pairwise_indexOf_dedupFirstAux : ∀ (l : List String) (seen : List String),
    (dedupFirstAux seen l).Pairwise (fun a b => l.indexOf a < l.indexOf b) := by
  intro l
  induction l with
  | nil => intro seen; simp [dedupFirstAux]
  | cons a l IH =>
    intro seen
    have hshift : ∀ (s : List String), a ∈ s → (dedupFirstAux s l).Pairwise
        (fun x y => (a :: l).indexOf x < (a :: l).indexOf y) := by
      intro s ha
      refine (IH s).imp_of_mem ?_
      intro x y hx hy hlt
      have hxne : x ≠ a := fun h => ((mem_dedupFirstAux x l s).mp hx).2 (by rw [h]; exact ha)
      have hyne : y ≠ a := fun h => ((mem_dedupFirstAux y l s).mp hy).2 (by rw [h]; exact ha)
      rw [List.indexOf_cons_ne _ hxne.symm, List.indexOf_cons_ne _ hyne.symm]
      omega
    by_cases h : a ∈ seen
    · rw [dedupFirstAux, if_pos h]
      exact hshift seen h
    · rw [dedupFirstAux, if_neg h]
      refine List.pairwise_cons.mpr ⟨?_, hshift (a :: seen) (List.mem_cons_self a seen)⟩
      intro b hb
      have hbne : b ≠ a := fun hba =>
        ((mem_dedupFirstAux b l (a :: seen)).mp hb).2 (by rw [hba]; exact List.mem_cons_self a seen)
      rw [List.indexOf_cons_self, List.indexOf_cons_ne _ hbne.symm]
      exact Nat.succ_pos _

theorem mval_not_mem {β : Type} (d : β) : ∀ (m : List (String × β)) (c : String),
    c ∉ keysOf m → mval d m c = d := by
  intro m
  induction m with
  | nil => intro c _; rfl
  | cons e m IH =>
    intro c hc
    obtain ⟨k, b⟩ := e
    have hk : k ≠ c := fun h => hc (h ▸ List.mem_cons_self k (keysOf m))
    rw [mval, if_neg hk]
    exact IH c (fun hm => hc (List.mem_cons_of_mem _ hm))

theorem assoc_ext {β : Type} (d : β) : ∀ (m1 m2 : List (String × β)),
    keysOf m1 = keysOf m2 → (keysOf m1).Nodup →
    (∀ c, mval d m1 c = mval d m2 c) → m1 = m2 := by
  intro m1
  induction m1 with
  | nil =>
    intro m2 hk _ _
    cases m2 with
    | nil => rfl
    | cons e m2 => simp [keysOf] at hk
  | cons e1 m1 IH =>
    intro m2 hk hnd hv
    cases m2 with
    | nil => simp [keysOf] at hk
    | cons e2 m2 =>
      obtain ⟨k1, b1⟩ := e1
      obtain ⟨k2, b2⟩ := e2
      have hk2 : k1 :: keysOf m1 = k2 :: keysOf m2 := hk
      have hnd2 : (k1 :: keysOf m1).Nodup := hnd
      injection hk2 with hk1 hkrest
      subst hk1
      have hb : b1 = b2 := by
        have hv1 := hv k1
        rwa [mval, if_pos rfl, mval, if_pos rfl] at hv1
      subst hb
      refine congrArg _ (IH m2 hkrest (List.nodup_cons.mp hnd2).2 ?_)
      intro c
      rcases eq_or_ne k1 c with rfl | hne
      · have hnm : k1 ∉ keysOf m1 := (List.nodup_cons.mp hnd2).1
        have hnm2 : k1 ∉ keysOf m2 := hkrest ▸ hnm
        rw [mval_not_mem d m1 k1 hnm, mval_not_mem d m2 k1 hnm2]
      · have hvc := hv c
        rwa [mval, if_neg hne, mval, if_neg hne] at hvc

theorem keysOf_graph {β : Type} (ds : List String) (f : String → β) :
    keysOf (ds.map (fun c => (c, f c))) = ds := by
  induction ds with
  | nil => rfl
  | cons a ds IH => simp [keysOf] at IH ⊢; exact IH

theorem mval_graph {β : Type} (d : β) (f : String → β) : ∀ (ds : List String) (c : String),
    mval d (ds.map (fun c => (c, f c))) c = if c ∈ ds then f c else d := by
  intro ds
  induction ds with
  | nil => intro c; simp [mval]
  | cons a ds IH =>
    intro c
    rcases eq_or_ne a c with rfl | hne
    · simp [mval]
    · rw [List.map_cons, mval, if_neg hne, IH]
      simp [hne.symm]

/-! ### C8: currency inference -/

theorem mval_bumpCount_same : ∀ (m : List (String × ℕ)) (c : String),
    mval 0 (bumpCount m c) c = mval 0 m c + 1 := by
  intro m
  induction m with
  | nil => intro c; simp [bumpCount, mval]
  | cons e m IH =>
    intro c
    obtain ⟨k, n⟩ := e
    rcases eq_or_ne k c with rfl | hne
    · rw [bumpCount, if_pos rfl, mval, if_pos rfl, mval, if_pos rfl]
    · rw [bumpCount, if_neg hne, mval, if_neg hne, mval, if_neg hne]
      exact IH c

theorem mval_bumpCount_other : ∀ (m : List (String × ℕ)) (c c' : String), c ≠ c' →
    mval 0 (bumpCount m c) c' = mval 0 m c' := by
  intro m
  induction m with
  | nil => intro c c' hne; simp [bumpCount, mval, hne]
  | cons e m IH =>
    intro c c' hne
    obtain ⟨k, n⟩ := e
    rcases eq_or_ne k c with rfl | hkc
    · rw [bumpCount, if_pos rfl, mval, mval, if_neg hne, if_neg hne]
    · rw [bumpCount, if_neg hkc, mval, mval]
      rcases eq_or_ne k c' with rfl | hkc'
      · rw [if_pos rfl, if_pos rfl]
      · rw [if_neg hkc', if_neg hkc']
        exact IH c c' hne

theorem keysOf_bumpCount : ∀ (m : List (String × ℕ)) (c : String),
    keysOf (bumpCount m c) =
      if c ∈ keysOf m then keysOf m else keysOf m ++ [c] := by
  intro m
  induction m with
  | nil => intro c; simp [bumpCount, keysOf]
  | cons e m IH =>
    intro c
    obtain ⟨k, n⟩ := e
    rcases eq_or_ne k c with rfl | hne
    · rw [bumpCount, if_pos rfl]
      have hmem : k ∈ keysOf ((k, n) :: m) := List.mem_cons_self _ _
      rw [if_pos hmem]
      rfl
    · rw [bumpCount, if_neg hne]
      have hk1 : keysOf ((k, n) :: bumpCount m c) = k :: keysOf (bumpCount m c) := rfl
      have hk2 : keysOf ((k, n) :: m) = k :: keysOf m := rfl
      rw [hk1, hk2, IH]
      by_cases hm : c ∈ keysOf m
      · rw [if_pos hm, if_pos (List.mem_cons_of_mem _ hm)]
      · rw [if_neg hm, if_neg (fun hcm => by
          rcases List.mem_cons.mp hcm with h1 | h1
          · exact hne h1.symm
          · exact hm h1)]
        rfl

theorem mval_foldl_bumpCount : ∀ (l : List String) (m : List (String × ℕ)) (c : String),
    mval 0 (l.foldl bumpCount m) c = mval 0 m c + l.count c := by
  intro l
  induction l with
  | nil => intro m c; simp [List.count_nil]
  | cons a l IH =>
    intro m c
    rw [List.foldl_cons, IH]
    rcases eq_or_ne a c with rfl | hne
    · rw [mval_bumpCount_same, List.count_cons_self]
      omega
    · rw [mval_bumpCount_other m a c hne, List.count_cons_of_ne hne.symm]

theorem keysOf_foldl_bumpCount : ∀ (l : List String) (m : List (String × ℕ)),
    keysOf (l.foldl bumpCount m) = keysOf m ++ dedupFirstAux (keysOf m) l := by
  intro l
  induction l with
  | nil => intro m; simp [dedupFirstAux]
  | cons a l IH =>
    intro m
    rw [List.foldl_cons, IH, keysOf_bumpCount]
    by_cases hm : a ∈ keysOf m
    · rw [if_pos hm, dedupFirstAux, if_pos hm]
    · rw [if_neg hm, dedupFirstAux, if_neg hm]
      rw [dedupFirstAux_congr l (keysOf m ++ [a]) (a :: keysOf m) (by intro x; simp [or_comm])]
      simp

/-- The normalized codes of the accounts, in order (accounts that fail
normalization are ignored). -/
def normalizedCodes (accounts : List AccountLike) : List String :=
  accounts.filterMap (fun a => normalizeCurrencyCode a.currencyCode)

theorem accumulateCounts_eq_codes_fold : ∀ (accounts : List AccountLike)
    (m : List (String × ℕ)),
    accounts.foldl
      (fun m a =>
        match normalizeCurrencyCode a.currencyCode with
        | none => m
        | some code => bumpCount m code) m
    = (normalizedCodes accounts).foldl bumpCount m := by
  intro accounts
  induction accounts with
  | nil => intro m; rfl
  | cons a accounts IH =>
    intro m
    rw [List.foldl_cons]
    cases hn : normalizeCurrencyCode a.currencyCode with
    | none =>
        rw [normalizedCodes, List.filterMap_cons
          (fun a : AccountLike => normalizeCurrencyCode a.currencyCode) a accounts, hn]
        exact IH m
    | some code =>
        rw [normalizedCodes, List.filterMap_cons
          (fun a : AccountLike => normalizeCurrencyCode a.currencyCode) a accounts, hn]
        exact IH (bumpCount m code)

/-- The accumulated counts map lists the distinct normalized codes in
first-seen order, each with its multiplicity. -/
theorem accumulateCounts_graph (accounts : List AccountLike) :
    accumulateCounts accounts =
      (dedupFirstAux [] (normalizedCodes accounts)).map
        (fun c => (c, (normalizedCodes accounts).count c)) := by
  rw [accumulateCounts, accumulateCounts_eq_codes_fold]
  refine assoc_ext 0 _ _ ?_ ?_ ?_
  · rw [keysOf_foldl_bumpCount, keysOf_graph]
    rfl
  · rw [keysOf_foldl_bumpCount]
    have h0 : keysOf ([] : List (String × ℕ)) = [] := rfl
    rw [h0, List.nil_append]
    exact nodup_dedupFirstAux _ _
  · intro c
    rw [mval_foldl_bumpCount, mval_graph]
    have h0 : mval 0 ([] : List (String × ℕ)) c = 0 := rfl
    rw [h0, Nat.zero_add]
    by_cases hc : c ∈ dedupFirstAux [] (normalizedCodes accounts)
    · rw [if_pos hc]
    · rw [if_neg hc]
      have hcn : c ∉ normalizedCodes accounts := fun hm =>
        hc ((mem_dedupFirstAux c (normalizedCodes accounts) []).mpr ⟨hm, by simp⟩)
      exact List.count_eq_zero_of_not_mem hcn

/-- The selection loop once a first candidate is installed: replace the
best only on a strictly greater count. -/
def pickLoop (cnt : String → ℕ) (b : String) (ds : List String) : String :=
  ds.foldl (fun best c => if cnt best < cnt c then c else best) b

theorem pickLoop_spec (cnt : String → ℕ) : ∀ (ds : List String) (b : String),
    (pickLoop cnt b ds = b ∧ ∀ d ∈ ds, cnt d ≤ cnt b)
    ∨ (∃ l1 l2, ds = l1 ++ pickLoop cnt b ds :: l2
        ∧ cnt b < cnt (pickLoop cnt b ds)
        ∧ (∀ d ∈ l1, cnt d < cnt (pickLoop cnt b ds))
        ∧ (∀ d ∈ l2, cnt d ≤ cnt (pickLoop cnt b ds))) := by
  intro ds
  induction ds with
  | nil => intro b; exact Or.inl ⟨rfl, by simp⟩
  | cons a ds IH =>
    intro b
    by_cases h : cnt b < cnt a
    · have hstep : pickLoop cnt b (a :: ds) = pickLoop cnt a ds := by
        rw [pickLoop, List.foldl_cons, if_pos h]
        rfl
      rcases IH a with ⟨heq, hall⟩ | ⟨l1, l2, hsplit, hgt, hpre, hpost⟩
      · refine Or.inr ⟨[], ds, ?_, ?_, by simp, ?_⟩
        · rw [hstep, heq]
          simp
        · rw [hstep, heq]; exact h
        · rw [hstep, heq]; exact hall
      · refine Or.inr ⟨a :: l1, l2, ?_, ?_, ?_, ?_⟩
        · rw [hstep, List.cons_append]
          exact congrArg (a :: ·) hsplit
        · rw [hstep]; exact lt_trans h hgt
        · rw [hstep]
          intro d hd
          rcases List.mem_cons.mp hd with rfl | hd
          · exact hgt
          · exact hpre d hd
        · rw [hstep]; exact hpost
    · have hstep : pickLoop cnt b (a :: ds) = pickLoop cnt b ds := by
        rw [pickLoop, List.foldl_cons, if_neg h]
        rfl
      rcases IH b with ⟨heq, hall⟩ | ⟨l1, l2, hsplit, hgt, hpre, hpost⟩
      · refine Or.inl ⟨by rw [hstep, heq], ?_⟩
        intro d hd
        rcases List.mem_cons.mp hd with rfl | hd
        · exact le_of_not_lt h
        · exact hall d hd
      · refine Or.inr ⟨a :: l1, l2, ?_, ?_, ?_, ?_⟩
        · rw [hstep, List.cons_append]
          exact congrArg (a :: ·) hsplit
        · rw [hstep]; exact hgt
        · rw [hstep]
          intro d hd
          rcases List.mem_cons.mp hd with rfl | hd
          · exact lt_of_le_of_lt (le_of_not_lt h) hgt
          · exact hpre d hd
        · rw [hstep]; exact hpost

theorem selectBest_graph (cnt : String → ℕ) : ∀ (ds : List String),
    (∀ c ∈ ds, 1 ≤ cnt c) →
    (selectBest (ds.map (fun c => (c, cnt c)))).1 =
      (match ds with
       | [] => none
       | c0 :: rest => some (pickLoop cnt c0 rest)) := by
  have hA : ∀ (ds : List String) (b : String),
      (ds.map (fun c => (c, cnt c))).foldl
          (fun acc e => if acc.2 < e.2 then (some e.1, e.2) else acc) (some b, cnt b)
        = (some (pickLoop cnt b ds), cnt (pickLoop cnt b ds)) := by
    intro ds
    induction ds with
    | nil => intro b; rfl
    | cons a ds IH =>
      intro b
      rw [List.map_cons, List.foldl_cons]
      by_cases h : cnt b < cnt a
      · have hstep : pickLoop cnt b (a :: ds) = pickLoop cnt a ds := by
          rw [pickLoop, List.foldl_cons, if_pos h]
          rfl
        rw [hstep, if_pos h]
        exact IH a
      · have hstep : pickLoop cnt b (a :: ds) = pickLoop cnt b ds := by
          rw [pickLoop, List.foldl_cons, if_neg h]
          rfl
        rw [hstep, if_neg h]
        exact IH b
  intro ds h1
  cases ds with
  | nil => rfl
  | cons c0 rest =>
    have hpos : 0 < cnt c0 := h1 c0 (List.mem_cons_self _ _)
    rw [List.map_cons, selectBest, List.foldl_cons]
    rw [if_pos (by simpa using hpos)]
    rw [hA rest c0]

theorem dedupFirstAux_nil_iff (l : List String) :
    dedupFirstAux [] l = [] ↔ l = [] := by
  constructor
  · intro h
    cases l with
    | nil => rfl
    | cons a l =>
      exfalso
      have ha : a ∈ dedupFirstAux [] (a :: l) :=
        (mem_dedupFirstAux a (a :: l) []).mpr ⟨List.mem_cons_self _ _, by simp⟩
      rw [h] at ha
      exact absurd ha (List.not_mem_nil a)
  · rintro rfl
    rfl

theorem infer_no_fallback (accounts : List AccountLike) :
    inferCurrencyCodeFromAccounts accounts none =
      (selectBest (accumulateCounts accounts)).1 := by
  have hnone : normalizeCurrencyCode none = none := by decide
  rw [inferCurrencyCodeFromAccounts]
  cases hbest : (selectBest (accumulateCounts accounts)).1 with
  | none => exact hnone
  | some b => rfl

/-- C8: the snapshot currency code is the most frequent normalized
currency code of the accounts (normalization: trim, uppercase, exactly
three ASCII letters, otherwise the account is ignored); ties go to the
code whose first occurrence comes earliest; absent exactly when no
account yields a valid code. -/
theorem currency_inference_spec (p : FinancePeriod) (accounts : List AccountLike)
    (txs : List TxLike) (now : ℤ) :
    ((buildDashboardSnapshotFromTransactions p accounts txs now).currencyCode = none
      ↔ normalizedCodes accounts = [])
    ∧ (∀ c, (buildDashboardSnapshotFromTransactions p accounts txs now).currencyCode = some c →
        c ∈ normalizedCodes accounts
        ∧ (∀ c' ∈ normalizedCodes accounts,
            (normalizedCodes accounts).count c' ≤ (normalizedCodes accounts).count c)
        ∧ (∀ c' ∈ normalizedCodes accounts,
            (normalizedCodes accounts).count c' = (normalizedCodes accounts).count c →
              (normalizedCodes accounts).indexOf c ≤ (normalizedCodes accounts).indexOf c')) := by
  have hcc : (buildDashboardSnapshotFromTransactions p accounts txs now).currencyCode
      = inferCurrencyCodeFromAccounts accounts none := by
    simp only [buildDashboardSnapshotFromTransactions]
  set codes := normalizedCodes accounts with hcodes
  have hsel : inferCurrencyCodeFromAccounts accounts none =
      (match dedupFirstAux [] codes with
       | [] => none
       | c0 :: rest => some (pickLoop (fun c => codes.count c) c0 rest)) := by
    rw [infer_no_fallback, accumulateCounts_graph]
    exact selectBest_graph (fun c => codes.count c) (dedupFirstAux [] codes)
      (fun c hc => List.count_pos_iff_mem.mpr
        ((mem_dedupFirstAux c codes []).mp hc).1)
  have hmemds : ∀ x, x ∈ dedupFirstAux [] codes ↔ x ∈ codes := by
    intro x
    rw [mem_dedupFirstAux]
    simp
  have hpw := pairwise_indexOf_dedupFirstAux codes []
  rw [hcc, hsel]
  cases hds : dedupFirstAux [] codes with
  | nil =>
    refine ⟨?_, ?_⟩
    · simp [← dedupFirstAux_nil_iff, hds]
    · intro c hc
      exact absurd hc (by simp)
  | cons c0 rest =>
    have hne : codes ≠ [] := by
      intro h0
      rw [← dedupFirstAux_nil_iff] at h0
      rw [hds] at h0
      exact List.noConfusion h0
    refine ⟨by simp [hne], ?_⟩
    intro c hc
    have hceq : c = pickLoop (fun c => codes.count c) c0 rest := by
      injection hc.symm
    rw [hds] at hmemds hpw
    rcases pickLoop_spec (fun c => codes.count c) rest c0 with ⟨heq, hall⟩ |
      ⟨l1, l2, hsplit, hgt, hpre, hpost⟩
    · -- the head already has the maximal count
      rw [heq] at hceq
      subst hceq
      refine ⟨(hmemds c).mp (List.mem_cons_self _ _), ?_, ?_⟩
      · intro c' hc'
        rcases List.mem_cons.mp ((hmemds c').mpr hc') with rfl | hr
        · exact le_refl _
        · exact hall c' hr
      · intro c' hc' _
        rcases List.mem_cons.mp ((hmemds c').mpr hc') with rfl | hr
        · exact le_refl _
        · exact le_of_lt ((List.pairwise_cons.mp hpw).1 c' hr)
    · -- the selected code sits in the middle of the first-seen list
      rw [← hceq] at hsplit hgt hpre hpost
      have hcds : c ∈ c0 :: rest := by
        rw [hsplit]
        exact List.mem_cons_of_mem _ (List.mem_append_right l1 (List.mem_cons_self _ _))
      refine ⟨(hmemds c).mp hcds, ?_, ?_⟩
      · intro c' hc'
        rcases List.mem_cons.mp ((hmemds c').mpr hc') with rfl | hr
        · exact le_of_lt hgt
        · rw [hsplit] at hr
          rcases List.mem_append.mp hr with h1 | h2
          · exact le_of_lt (hpre c' h1)
          · rcases List.mem_cons.mp h2 with rfl | h3
            · exact le_refl _
            · exact hpost c' h3
      · intro c' hc' hcnt
        rcases List.mem_cons.mp ((hmemds c').mpr hc') with rfl | hr
        · exact absurd hcnt (by omega)
        · rw [hsplit] at hr
          rcases List.mem_append.mp hr with h1 | h2
          · exact absurd hcnt (by have := hpre c' h1; omega)
          · rcases List.mem_cons.mp h2 with rfl | h3
            · exact le_refl _
            · have hsub : (c :: l2).Sublist (c0 :: rest) := by
                rw [hsplit]
                exact (List.sublist_append_right l1 (c :: l2)).trans
                  (List.sublist_cons_self c0 _)
              have hcpw := List.pairwise_cons.mp (hpw.sublist hsub)
              exact le_of_lt (hcpw.1 c' h3)

/-- C8 witness: two accounts normalize to `"USD"` (one lowercased, one
already uppercase) and one to `"EUR"`; the snapshot carries `"USD"`. -/
theorem currency_inference_spec_witness :
    (buildDashboardSnapshotFromTransactions .P1W
      [⟨none, none, some "usd"⟩, ⟨none, none, some " eur "⟩, ⟨none, none, some "USD"⟩]
      [] 0).currencyCode = some "USD" ∧
    "USD" ∈ normalizedCodes
      [⟨none, none, some "usd"⟩, ⟨none, none, some " eur "⟩, ⟨none, none, some "USD"⟩] ∧
    (∀ c' ∈ normalizedCodes
        [⟨none, none, some "usd"⟩, ⟨none, none, some " eur "⟩, ⟨none, none, some "USD"⟩],
      (normalizedCodes
        [⟨none, none, some "usd"⟩, ⟨none, none, some " eur "⟩,
          ⟨none, none, some "USD"⟩]).count c' ≤
      (normalizedCodes
        [⟨none, none, some "usd"⟩, ⟨none, none, some " eur "⟩,
          ⟨none, none, some "USD"⟩]).count "USD") := by
  have hr : (buildDashboardSnapshotFromTransactions .P1W
      [⟨none, none, some "usd"⟩, ⟨none, none, some " eur "⟩, ⟨none, none, some "USD"⟩]
      [] 0).currencyCode = some "USD" := by decide
  have h := (currency_inference_spec .P1W
    [⟨none, none, some "usd"⟩, ⟨none, none, some " eur "⟩, ⟨none, none, some "USD"⟩]
    [] 0).2 "USD" hr
  exact ⟨hr, h.1, h.2.1⟩

/-! ### C5: the spending summary -/

theorem mval_bumpAmount_same : ∀ (m : List (String × ℚ)) (k : String) (v : ℚ),
    mval 0 (bumpAmount m k v) k = mval 0 m k + v := by
  intro m
  induction m with
  | nil => intro k v; simp [bumpAmount, mval]
  | cons e m IH =>
    intro k v
    obtain ⟨c, a⟩ := e
    rcases eq_or_ne c k with rfl | hne
    · rw [bumpAmount, if_pos rfl, mval, if_pos rfl, mval, if_pos rfl]
    · rw [bumpAmount, if_neg hne, mval, if_neg hne, mval, if_neg hne]
      exact IH k v

theorem mval_bumpAmount_other : ∀ (m : List (String × ℚ)) (k : String) (v : ℚ)
    (c : String), k ≠ c → mval 0 (bumpAmount m k v) c = mval 0 m c := by
  intro m
  induction m with
  | nil => intro k v c hne; simp [bumpAmount, mval, hne]
  | cons e m IH =>
    intro k v c hne
    obtain ⟨c0, a⟩ := e
    rcases eq_or_ne c0 k with rfl | hck
    · rw [bumpAmount, if_pos rfl, mval, mval, if_neg hne, if_neg hne]
    · rw [bumpAmount, if_neg hck, mval, mval]
      rcases eq_or_ne c0 c with rfl | hcc
      · rw [if_pos rfl, if_pos rfl]
      · rw [if_neg hcc, if_neg hcc]
        exact IH k v c hne

theorem keysOf_bumpAmount : ∀ (m : List (String × ℚ)) (k : String) (v : ℚ),
    keysOf (bumpAmount m k v) =
      if k ∈ keysOf m then keysOf m else keysOf m ++ [k] := by
  intro m
  induction m with
  | nil => intro k v; simp [bumpAmount, keysOf]
  | cons e m IH =>
    intro k v
    obtain ⟨c0, a⟩ := e
    rcases eq_or_ne c0 k with rfl | hne
    · rw [bumpAmount, if_pos rfl]
      have hmem : c0 ∈ keysOf ((c0, a) :: m) := List.mem_cons_self _ _
      rw [if_pos hmem]
      rfl
    · rw [bumpAmount, if_neg hne]
      have hk1 : keysOf ((c0, a) :: bumpAmount m k v) = c0 :: keysOf (bumpAmount m k v) := rfl
      have hk2 : keysOf ((c0, a) :: m) = c0 :: keysOf m := rfl
      rw [hk1, hk2, IH]
      by_cases hm : k ∈ keysOf m
      · rw [if_pos hm, if_pos (List.mem_cons_of_mem _ hm)]
      · rw [if_neg hm, if_neg (fun hcm => by
          rcases List.mem_cons.mp hcm with h1 | h1
          · exact hne h1.symm
          · exact hm h1)]
        rfl

/-- The accumulation keys of the expense transactions, in list order. -/
def expenseKeys (txs : List TxAmountCategory) : List String :=
  (txs.filter (fun t => decide (t.amount < 0))).map (fun t => summaryCategoryKey t.category)

/-- Total spend magnitude of the expense transactions accumulated under
key `c`. -/
def catSpend (txs : List TxAmountCategory) (c : String) : ℚ :=
  ((txs.filter (fun t => decide (t.amount < 0) && (summaryCategoryKey t.category == c))).map
    (fun t => -t.amount)).sum

theorem summary_fold_spec : ∀ (txs : List TxAmountCategory) (acc : SummaryAcc),
    ((txs.foldl summaryStep acc).income
        = acc.income + ((txs.filter (fun t => decide (0 ≤ t.amount))).map
            (fun t => t.amount)).sum)
    ∧ ((txs.foldl summaryStep acc).spend
        = acc.spend + ((txs.filter (fun t => decide (t.amount < 0))).map
            (fun t => -t.amount)).sum)
    ∧ (∀ c, mval 0 (txs.foldl summaryStep acc).byCategory c
        = mval 0 acc.byCategory c + catSpend txs c)
    ∧ keysOf (txs.foldl summaryStep acc).byCategory
        = keysOf acc.byCategory ++ dedupFirstAux (keysOf acc.byCategory) (expenseKeys txs) := by
  intro txs
  induction txs with
  | nil =>
    intro acc
    refine ⟨by simp, by simp, fun c => by simp [catSpend], by simp [expenseKeys, dedupFirstAux]⟩
  | cons t ts IH =>
    intro acc
    rw [List.foldl_cons]
    obtain ⟨IH1, IH2, IH3, IH4⟩ := IH (summaryStep acc t)
    by_cases h : 0 ≤ t.amount
    · have hstep : summaryStep acc t = { acc with income := acc.income + t.amount } := by
        rw [summaryStep, if_pos h]
      have hneg : ¬ t.amount < 0 := not_lt.mpr h
      refine ⟨?_, ?_, ?_, ?_⟩
      · rw [IH1, hstep]
        simp [List.filter_cons, h]
        ring
      · rw [IH2, hstep]
        simp [List.filter_cons, hneg]
      · intro c
        rw [IH3 c, hstep]
        simp only [catSpend, List.filter_cons]
        simp [hneg]
      · rw [IH4, hstep]
        simp only [expenseKeys, List.filter_cons]
        simp [hneg]
    · have hlt : t.amount < 0 := lt_of_not_le h
      have hstep : summaryStep acc t =
          { income := acc.income, spend := acc.spend + (-t.amount),
            byCategory := bumpAmount acc.byCategory (summaryCategoryKey t.category)
              (-t.amount) } := by
        rw [summaryStep, if_neg h]
      refine ⟨?_, ?_, ?_, ?_⟩
      · rw [IH1, hstep]
        simp [List.filter_cons, h]
      · rw [IH2, hstep]
        simp [List.filter_cons, hlt]
        ring
      · intro c
        rw [IH3 c, hstep]
        simp only [catSpend, List.filter_cons]
        rcases eq_or_ne (summaryCategoryKey t.category) c with hkc | hkc
        · rw [hkc]
          simp [hlt, mval_bumpAmount_same]
          ring
        · have hbeq : (summaryCategoryKey t.category == c) = false := by
            simp [hkc]
          simp [hlt, hbeq, mval_bumpAmount_other _ _ _ _ hkc]
      · rw [IH4, hstep]
        simp only [expenseKeys, List.filter_cons]
        have hkeys := keysOf_bumpAmount acc.byCategory (summaryCategoryKey t.category)
          (-t.amount)
        simp only [hlt, decide_True, if_true, List.map_cons]
        by_cases hm : summaryCategoryKey t.category ∈ keysOf acc.byCategory
        · rw [hkeys, if_pos hm, dedupFirstAux, if_pos hm]
        · rw [hkeys, if_neg hm, dedupFirstAux, if_neg hm]
          rw [dedupFirstAux_congr _ (keysOf acc.byCategory ++ [summaryCategoryKey t.category])
            (summaryCategoryKey t.category :: keysOf acc.byCategory) (by intro x; simp [or_comm])]
          simp [hlt]

/-- The accumulated spend-by-category map lists the distinct expense
keys in first-encounter order, each with its total spend magnitude. -/
theorem summary_byCategory_graph (txs : List TxAmountCategory) :
    (txs.foldl summaryStep ⟨0, 0, []⟩).byCategory =
      (dedupFirstAux [] (expenseKeys txs)).map (fun c => (c, catSpend txs c)) := by
  obtain ⟨_, _, h3, h4⟩ := summary_fold_spec txs ⟨0, 0, []⟩
  refine assoc_ext 0 _ _ ?_ ?_ ?_
  · rw [h4, keysOf_graph]
    rfl
  · rw [h4]
    have h0 : keysOf (SummaryAcc.mk 0 0 []).byCategory = [] := rfl
    rw [h0, List.nil_append]
    exact nodup_dedupFirstAux _ _
  · intro c
    rw [h3 c, mval_graph]
    have h0 : mval 0 (SummaryAcc.mk 0 0 []).byCategory c = 0 := rfl
    rw [h0, zero_add]
    by_cases hc : c ∈ dedupFirstAux [] (expenseKeys txs)
    · rw [if_pos hc]
    · rw [if_neg hc]
      have hcn : c ∉ expenseKeys txs := fun hm =>
        hc ((mem_dedupFirstAux c (expenseKeys txs) []).mpr ⟨hm, by simp⟩)
      rw [catSpend]
      have hfil : txs.filter
          (fun t => decide (t.amount < 0) && (summaryCategoryKey t.category == c)) = [] := by
        rw [List.filter_eq_nil]
        intro t ht hcond
        refine hcn ?_
        rw [expenseKeys, List.mem_map]
        refine ⟨t, List.mem_filter.mpr ⟨ht, ?_⟩, ?_⟩
        · exact (Bool.and_eq_true _ _ |>.mp hcond).1
        · exact beq_iff_eq.mp (Bool.and_eq_true _ _ |>.mp hcond).2
      rw [hfil]
      rfl

theorem insertByAmountDesc_perm (x : String × ℚ) : ∀ (l : List (String × ℚ)),
    (insertByAmountDesc x l).Perm (x :: l) := by
  intro l
  induction l with
  | nil => exact List.Perm.refl _
  | cons y ys IH =>
    rw [insertByAmountDesc]
    by_cases h : y.2 < x.2
    · rw [if_pos h]
    · rw [if_neg h]
      exact (List.Perm.cons y IH).trans (List.Perm.swap x y ys)

theorem sortByAmountDesc_perm (l : List (String × ℚ)) :
    (sortByAmountDesc l).Perm l := by
  have hgen : ∀ (l acc : List (String × ℚ)),
      (l.foldl (fun acc x => insertByAmountDesc x acc) acc).Perm (acc ++ l) := by
    intro l
    induction l with
    | nil => intro acc; simp
    | cons x l IH =>
      intro acc
      rw [List.foldl_cons]
      refine (IH (insertByAmountDesc x acc)).trans ?_
      refine ((insertByAmountDesc_perm x acc).append_right l).trans ?_
      rw [List.cons_append]
      exact List.perm_middle.symm
  simpa using hgen l []

theorem insertByAmountDesc_sorted (x : String × ℚ) : ∀ (l : List (String × ℚ)),
    List.Sorted (fun a b : String × ℚ => b.2 ≤ a.2) l →
    List.Sorted (fun a b : String × ℚ => b.2 ≤ a.2) (insertByAmountDesc x l) := by
  intro l
  induction l with
  | nil => intro _; simp [insertByAmountDesc]
  | cons y ys IH =>
    intro hs
    obtain ⟨hy, hys⟩ := List.pairwise_cons.mp hs
    rw [insertByAmountDesc]
    by_cases h : y.2 < x.2
    · rw [if_pos h]
      refine List.pairwise_cons.mpr ⟨?_, hs⟩
      intro z hz
      rcases List.mem_cons.mp hz with rfl | hz
      · exact le_of_lt h
      · exact le_trans (hy z hz) (le_of_lt h)
    · rw [if_neg h]
      refine List.pairwise_cons.mpr ⟨?_, IH hys⟩
      intro z hz
      have hz' : z ∈ x :: ys := (insertByAmountDesc_perm x ys).mem_iff.mp hz
      rcases List.mem_cons.mp hz' with rfl | hz'
      · exact le_of_not_lt h
      · exact hy z hz'

theorem sortByAmountDesc_sorted (l : List (String × ℚ)) :
    List.Sorted (fun a b : String × ℚ => b.2 ≤ a.2) (sortByAmountDesc l) := by
  have hgen : ∀ (l acc : List (String × ℚ)),
      List.Sorted (fun a b : String × ℚ => b.2 ≤ a.2) acc →
      List.Sorted (fun a b : String × ℚ => b.2 ≤ a.2)
        (l.foldl (fun acc x => insertByAmountDesc x acc) acc) := by
    intro l
    induction l with
    | nil => intro acc hacc; exact hacc
    | cons x l IH =>
      intro acc hacc
      rw [List.foldl_cons]
      exact IH _ (insertByAmountDesc_sorted x acc hacc)
  exact hgen l [] (by simp)

/-- C5: `buildSpendingSummary` returns the income sum (amounts ≥ 0), the
spend sum (magnitudes of amounts < 0), `net = income - spend`, and
`topCategories` = the per-category spend totals keyed by the trimmed
label (null/blank mapped to "Uncategorized"), listed in first-encounter
order, stably sorted descending by amount (ties keep first-encountered
order) and truncated to 8; the concrete three-transaction scenario of
the spec evaluates as stated. -/
theorem buildSpendingSummary_spec (txs : List TxAmountCategory) :
    ((buildSpendingSummary txs).income
        = ((txs.filter (fun t => decide (0 ≤ t.amount))).map (fun t => t.amount)).sum)
    ∧ ((buildSpendingSummary txs).spend
        = ((txs.filter (fun t => decide (t.amount < 0))).map (fun t => -t.amount)).sum)
    ∧ ((buildSpendingSummary txs).net
        = (buildSpendingSummary txs).income - (buildSpendingSummary txs).spend)
    ∧ ((buildSpendingSummary txs).topCategories
        = ((sortByAmountDesc ((dedupFirstAux [] (expenseKeys txs)).map
            (fun c => (c, catSpend txs c)))).take 8).map (fun e => ⟨e.1, e.2⟩))
    ∧ ((buildSpendingSummary txs).topCategories.length ≤ 8)
    ∧ List.Sorted (fun a b : CategoryAmount => b.amount ≤ a.amount)
        (buildSpendingSummary txs).topCategories
    ∧ (∀ e ∈ (buildSpendingSummary txs).topCategories, e.amount = catSpend txs e.category)
    ∧ buildSpendingSummary [⟨1000, none⟩, ⟨-200, some "Groceries"⟩, ⟨-100, some "Streaming"⟩]
        = ⟨1000, 300, 700, [⟨"Groceries", 200⟩, ⟨"Streaming", 100⟩]⟩ := by
  have hTop : (buildSpendingSummary txs).topCategories
      = ((sortByAmountDesc ((dedupFirstAux [] (expenseKeys txs)).map
          (fun c => (c, catSpend txs c)))).take 8).map (fun e => ⟨e.1, e.2⟩) := by
    simp only [buildSpendingSummary]
    rw [summary_byCategory_graph]
  refine ⟨?_, ?_, rfl, hTop, ?_, ?_, ?_, ?_⟩
  · simp only [buildSpendingSummary]
    rw [(summary_fold_spec txs ⟨0, 0, []⟩).1]
    simp
  · simp only [buildSpendingSummary]
    rw [(summary_fold_spec txs ⟨0, 0, []⟩).2.1]
    simp
  · rw [hTop, List.length_map, List.length_take]
    exact min_le_left _ _
  · rw [hTop]
    refine List.pairwise_map.mpr ?_
    exact List.Pairwise.sublist (List.take_sublist 8 _) (sortByAmountDesc_sorted _)
  · intro e he
    rw [hTop] at he
    obtain ⟨e', he', rfl⟩ := List.mem_map.mp he
    have he2 : e' ∈ sortByAmountDesc ((dedupFirstAux [] (expenseKeys txs)).map
        (fun c => (c, catSpend txs c))) := List.take_subset 8 _ he'
    have he3 := (sortByAmountDesc_perm _).mem_iff.mp he2
    obtain ⟨c, _, rfl⟩ := List.mem_map.mp he3
    rfl
  · have hkG : summaryCategoryKey (some "Groceries") = "Groceries" := by decide
    have hkS : summaryCategoryKey (some "Streaming") = "Streaming" := by decide
    norm_num [buildSpendingSummary, summaryStep, hkG, hkS, bumpAmount,
      sortByAmountDesc, insertByAmountDesc]
    rw [if_neg (by decide : ¬ ("Groceries" = "Streaming"))]
    norm_num [insertByAmountDesc]
